import Mathlib

/-!
Verification of the OPA policy server core (HTTP data/policy handlers, the
gRPC validate façade, the request builder, and the error responder) against
a shallow embedding of the Go source in `server/server.go`,
`server/grpc-server.go` and the `topdown` request-builder test file.

External collaborators (the storage engine, the Rego term parser, the
compiler) are modelled either abstractly (as function parameters) or, where a
claim depends on their concrete behaviour, by small definitions marked
`Modelled from the spec:`.
-/

set_option maxHeartbeats 1000000

/-- JSON-like documents as decoded by the server (`interface{}` values coming
from `encoding/json` with `UseNumber`); numbers are modelled as integers. -/
inductive Data where
  | null
  | boolV (b : Bool)
  | num (n : Int)
  | str (s : String)
  | arr (elems : List Data)
  | obj (fields : List (String × Data))
deriving Repr

/-- Key lookup in a JSON object, first binding wins (Go map semantics with
unique keys). -/
def lookupF (k : String) : List (String × Data) → Option Data
  | [] => none
  | (k1, v) :: rest => if k1 = k then some v else lookupF k rest

/-- Insert-or-replace of a key in a JSON object. -/
def setF (k : String) (v : Data) : List (String × Data) → List (String × Data)
  | [] => [(k, v)]
  | (k1, v1) :: rest => if k1 = k then (k, v) :: rest else (k1, v1) :: setF k v rest

/-- Whether a document is a JSON object (the Go
`.(map[string]interface{})` shape test). -/
def isObjD : Data → Bool
  | .obj _ => true
  | _ => false

/-!  ## Error taxonomy and the automatic error responder (`handleErrorAuto`)

The recognized error kinds in the source are `storage` not-found,
`WriteConflictError`, `badRequestError` and `storage` invalid-patch.  All four
are leaf error types in the source: `WriteConflictError` is a struct and
`badRequestError` a string type, neither implements the `causer` interface of
`github.com/pkg/errors`, so a recognized kind can only sit at the top of a
cause chain or at its root.  Wrapping nodes produced by `errors.Wrap` carry a
cause but are never themselves a recognized kind. -/

/-- Go error values reaching `handleErrorAuto`: four recognized leaf kinds,
an unrecognized leaf, and `pkg/errors`-style wrappers. -/
inductive GoError where
  | notFoundE (msg : String)
  | writeConflictGo (path : List String)
  | badRequestE (msg : String)
  | invalidPatchE (msg : String)
  | otherE (msg : String)
  | wrapped (msg : String) (cause : GoError)
deriving DecidableEq, Repr

/-- `errors.Cause` from `github.com/pkg/errors`: repeatedly unwraps while the
error implements `causer`, returning the root cause. -/
def errorsCause : GoError → GoError
  | .wrapped _ c => errorsCause c
  | e => e

/-- The status code attached to a single error value by the recognition tests
in `handleErrorAuto` (`storage.IsNotFound`, `IsWriteConflict`, `isBadRequest`,
`storage.IsInvalidPatch`); `none` when no test recognizes the value. -/
def kindStatusOf : GoError → Option Nat
  | .notFoundE _ => some 404
  | .writeConflictGo _ => some 404
  | .badRequestE _ => some 400
  | .invalidPatchE _ => some 400
  | .otherE _ => none
  | .wrapped _ _ => none

/-- The status code chosen by `handleErrorAuto`: test the error itself, then
step `curr = errors.Cause(prev)` and re-test, stopping as soon as the chain
stops changing; 500 when nothing was recognized. -/
def handleErrorAuto (e : GoError) : Nat :=
  match kindStatusOf e with
  | some c => c
  | none =>
    let r := errorsCause e
    if r = e then 500
    else
      match kindStatusOf r with
      | some c => c
      | none => 500

/-- The specification's description of the mapping: walk the cause chain one
step at a time until a recognized kind is found or the chain is exhausted;
500 otherwise. -/
def chainStatus : GoError → Nat
  | .wrapped m c =>
    match kindStatusOf (.wrapped m c) with
    | some s => s
    | none => chainStatus c
  | e =>
    match kindStatusOf e with
    | some s => s
    | none => 500

/-- True when no error in the cause chain is of a recognized kind. -/
def recKindFree : GoError → Bool
  | .otherE _ => true
  | .wrapped _ c => recKindFree c
  | _ => false

/-!  ## Store paths and the storage collaborator

`storage.Path` is a slash-separated sequence of non-empty segments.  The
storage engine itself is outside `src/`.
Modelled from the spec: a tree-structured document store over JSON values;
`Read` walks object keys and numeric array indices and reports `NotFound`
when the walk fails; `Write` with `add` creates or replaces an object key,
appends to an array on a trailing `-` segment, and requires every
intermediate node of the path to exist. -/

/-- Server-side error values raised by the data/patch handlers.  All of them
are leaf errors whose status under `handleErrorAuto` is given by
`srvStatus`. -/
inductive SrvErr where
  | notFound
  | writeConflictE (path : List String)
  | invalidPatch
  | badPatchOperation (op : String)
  | badPatchPath (path : String)
deriving DecidableEq, Repr

/-- Status assigned by `handleErrorAuto` to each server error kind
(`badPatchOperation`/`badPatchPath` are `badRequestError`s in the source). -/
def srvStatus : SrvErr → Nat
  | .notFound => 404
  | .writeConflictE _ => 404
  | .invalidPatch => 400
  | .badPatchOperation _ => 400
  | .badPatchPath _ => 400

/-- `strings.Trim(s, "/")`. -/
def trimSlashes (s : String) : String :=
  let l := s.toList.dropWhile (fun c => c = '/')
  String.mk ((l.reverse.dropWhile (fun c => c = '/')).reverse)

/-- Split a character list at every occurrence of `c` (the pieces keep no
separator; n separators give n+1 pieces). -/
def splitChar (c : Char) : List Char → List (List Char)
  | [] => [[]]
  | x :: rest =>
    let r := splitChar c rest
    if x = c then [] :: r
    else
      match r with
      | [] => [[x]]
      | h :: t => (x :: h) :: t

/-- Modelled from the spec: `storage.ParsePath` — the string must begin with
`/`; `/` alone is the empty path; otherwise the remainder splits on `/` into
segments that must all be non-empty. -/
def parsePath (s : String) : Option (List String) :=
  match s.toList with
  | [] => none
  | c :: rest =>
    if c = '/' then
      match rest with
      | [] => some []
      | _ =>
        let segs := splitChar '/' rest
        if segs.any (fun x => x.isEmpty) then none
        else some (segs.map (fun l => String.mk l))
    else none

/-- Modelled from the spec: `storage.Read` — walk the document along the
path; object nodes are indexed by key, array nodes by a decimal segment;
any failure is a store `NotFound`. -/
def readData (d : Data) (p : List String) : Except SrvErr Data :=
  match p with
  | [] => .ok d
  | k :: rest =>
    match d with
    | .obj fs =>
      match lookupF k fs with
      | some c => readData c rest
      | none => .error .notFound
    | .arr l =>
      match k.toNat? with
      | some i =>
        if h : i < l.length then readData (l.get ⟨i, h⟩) rest
        else .error .notFound
      | none => .error .notFound
    | _ => .error .notFound

/-- Insert an element at position `i` of a list (JSON-patch array `add`). -/
def insertListAt (i : Nat) (v : Data) (l : List Data) : List Data :=
  l.take i ++ v :: l.drop i

/-- Modelled from the spec: `storage.Write` with `AddOp` — create or replace
an object key, insert into an array (with `-` meaning append); intermediate
nodes must already exist. -/
def writeAdd (d : Data) (p : List String) (v : Data) : Except SrvErr Data :=
  match p with
  | [] => .ok v
  | [k] =>
    match d with
    | .obj fs => .ok (.obj (setF k v fs))
    | .arr l =>
      if k = "-" then .ok (.arr (l ++ [v]))
      else
        match k.toNat? with
        | some i => if i ≤ l.length then .ok (.arr (insertListAt i v l)) else .error .invalidPatch
        | none => .error .invalidPatch
    | _ => .error .invalidPatch
  | k :: rest =>
    match d with
    | .obj fs =>
      match lookupF k fs with
      | some c => (writeAdd c rest v).map (fun c2 => .obj (setF k c2 fs))
      | none => .error .notFound
    | .arr l =>
      match k.toNat? with
      | some i =>
        if h : i < l.length then
          (writeAdd (l.get ⟨i, h⟩) rest v).map (fun c2 => .arr (l.set i c2))
        else .error .notFound
      | none => .error .notFound
    | _ => .error .notFound

/-- Modelled from the spec: `storage.Write` with `RemoveOp`. -/
def removeData (d : Data) (p : List String) : Except SrvErr Data :=
  match p with
  | [] => .error .invalidPatch
  | [k] =>
    match d with
    | .obj fs =>
      match lookupF k fs with
      | some _ => .ok (.obj (fs.filter (fun kv => kv.1 != k)))
      | none => .error .notFound
    | .arr l =>
      match k.toNat? with
      | some i =>
        if i < l.length then .ok (.arr (l.take i ++ l.drop (i + 1))) else .error .notFound
      | none => .error .notFound
    | _ => .error .notFound
  | k :: rest =>
    match d with
    | .obj fs =>
      match lookupF k fs with
      | some c => (removeData c rest).map (fun c2 => .obj (setF k c2 fs))
      | none => .error .notFound
    | .arr l =>
      match k.toNat? with
      | some i =>
        if h : i < l.length then
          (removeData (l.get ⟨i, h⟩) rest).map (fun c2 => .arr (l.set i c2))
        else .error .notFound
      | none => .error .notFound
    | _ => .error .notFound

/-- Modelled from the spec: `storage.Write` with `ReplaceOp`. -/
def replaceData (d : Data) (p : List String) (v : Data) : Except SrvErr Data :=
  match p with
  | [] => .ok v
  | [k] =>
    match d with
    | .obj fs =>
      match lookupF k fs with
      | some _ => .ok (.obj (setF k v fs))
      | none => .error .notFound
    | .arr l =>
      match k.toNat? with
      | some i =>
        if i < l.length then .ok (.arr (l.set i v)) else .error .notFound
      | none => .error .notFound
    | _ => .error .notFound
  | k :: rest =>
    match d with
    | .obj fs =>
      match lookupF k fs with
      | some c => (replaceData c rest v).map (fun c2 => .obj (setF k c2 fs))
      | none => .error .notFound
    | .arr l =>
      match k.toNat? with
      | some i =>
        if h : i < l.length then
          (replaceData (l.get ⟨i, h⟩) rest v).map (fun c2 => .arr (l.set i c2))
        else .error .notFound
      | none => .error .notFound
    | _ => .error .notFound

/-!  ## The write-conflict check and the patch planner -/

/-- `storage.PatchOp`. -/
inductive PatchOpK where
  | addK
  | removeK
  | replaceK
deriving DecidableEq, Repr

/-- The trailing-`-` adjustment in `writeConflict`: an `add` whose last
segment is `-` is checked against the path without that segment. -/
def stripAppendSeg (k : PatchOpK) (p : List String) : List String :=
  if k = .addK ∧ p.getLast? = some "-" then p.dropLast else p

/-- `Server.writeConflict`: the compiler's virtual-document index is the
abstract parameter `hv` (`GetRulesForVirtualDocument` answered on the
data path); a hit is a `WriteConflictError` carrying the (adjusted) path. -/
def writeConflict (hv : List String → Bool) (k : PatchOpK) (p : List String) :
    Except SrvErr Unit :=
  let q := stripAppendSeg k p
  if hv q then .error (.writeConflictE q) else .ok ()

/-- `patchV1`, one decoded JSON-patch operation. -/
structure PatchV1R where
  op : String
  path : String
  value : Data

/-- `patchImpl`, one planned store write. -/
structure PatchImpl where
  op : PatchOpK
  path : List String
  value : Data

/-- The `op` field mapping of `prepareV1PatchSlice`. -/
def parseOpK : String → Option PatchOpK
  | "add" => some .addK
  | "remove" => some .removeK
  | "replace" => some .replaceK
  | _ => none

/-- Path join of `prepareV1PatchSlice`: the slash-trimmed op path appended to
the rooted prefix (or the root alone when the op path trims to empty). -/
def joinPatchPath (root : String) (opPath : String) : String :=
  let t := trimSlashes opPath
  if t.length > 0 then root ++ "/" ++ t else root

/-- The rooted prefix `"/" + strings.Trim(root, "/")`. -/
def normRoot (r : String) : String := "/" ++ trimSlashes r

/-- Validation of a single op in `prepareV1PatchSlice`: map the op name,
parse the joined path (failure reports the original, pre-join op path), and
run the write-conflict check. -/
def prepOne (hv : List String → Bool) (root : String) (p : PatchV1R) :
    Except SrvErr PatchImpl :=
  match parseOpK p.op with
  | none => .error (.badPatchOperation p.op)
  | some k =>
    match parsePath (joinPatchPath root p.path) with
    | none => .error (.badPatchPath p.path)
    | some pp =>
      match writeConflict hv k pp with
      | .error e => .error e
      | .ok _ => .ok ⟨k, pp, p.value⟩

/-- The loop of `prepareV1PatchSlice`: ops are validated in order, the first
failure aborts the whole plan. -/
def prepList (hv : List String → Bool) (root : String) :
    List PatchV1R → Except SrvErr (List PatchImpl)
  | [] => .ok []
  | p :: rest =>
    match prepOne hv root p with
    | .error e => .error e
    | .ok impl => (prepList hv root rest).map (fun r => impl :: r)

/-- `Server.prepareV1PatchSlice`. -/
def prepareV1PatchSlice (hv : List String → Bool) (rootRaw : String)
    (ops : List PatchV1R) : Except SrvErr (List PatchImpl) :=
  prepList hv (normRoot rootRaw) ops

/-- One store write of a planned patch. -/
def writeStore (d : Data) (k : PatchOpK) (p : List String) (v : Data) :
    Except SrvErr Data :=
  match k with
  | .addK => writeAdd d p v
  | .removeK => removeData d p
  | .replaceK => replaceData d p v

/-- The write loop of `v1DataPatch`: apply planned patches in order, stopping
at the first store error (earlier writes of the batch stay applied inside the
transaction). -/
def applyPatchesA (store : Data) : List PatchImpl → Data × Option SrvErr
  | [] => (store, none)
  | impl :: rest =>
    match writeStore store impl.op impl.path impl.value with
    | .error e => (store, some e)
    | .ok d2 => applyPatchesA d2 rest

/-- `Server.v1DataPatch`: decode ops (elided), plan them all, then apply; a
planning failure responds with the error's status and performs no write. -/
def v1DataPatch (hv : List String → Bool) (store : Data) (rootRaw : String)
    (ops : List PatchV1R) : Data × Nat :=
  match prepareV1PatchSlice hv rootRaw ops with
  | .error e => (store, srvStatus e)
  | .ok patches =>
    match applyPatchesA store patches with
    | (d2, some e) => (d2, srvStatus e)
    | (d2, none) => (d2, 204)

/-!  ## `makeDir` and `PUT /v1/data` -/

/-- The body of `Server.makeDir`: if the node exists it must be an object
(otherwise `WriteConflictError` at that path); on store `NotFound` the
parent is materialized first, the write-conflict check is run, and an empty
object is written at the path.  The Go recursion descends along
`path[:len(path)-1]`, so its depth is bounded by the path length; that bound
is the explicit `fuel` argument here, consumed one unit per recursive call
(the fuel-exhausted arm is unreachable for any fuel above the path
length). -/
def makeDirF (hv : List String → Bool) (d : Data) :
    Nat → List String → Except SrvErr Data
  | 0, _ => .error .notFound
  | fuel + 1, p =>
    match readData d p with
    | .ok node =>
      match node with
      | .obj _ => .ok d
      | _ => .error (.writeConflictE p)
    | .error e =>
      match e with
      | .notFound =>
        match p with
        | [] => .error .notFound
        | a :: l =>
          match makeDirF hv d fuel (a :: l).dropLast with
          | .error e1 => .error e1
          | .ok d1 =>
            match writeConflict hv .addK (a :: l) with
            | .error e1 => .error e1
            | .ok _ => writeAdd d1 (a :: l) (.obj [])
      | _ => .error e

/-- `Server.makeDir`, at its recursion-depth bound. -/
def makeDir (hv : List String → Bool) (d : Data) (p : List String) :
    Except SrvErr Data :=
  makeDirF hv d (p.length + 1) p

/-- The write path of `v1DataPut` after the path has been parsed: read the
target; on store `NotFound` materialize the missing ancestors via `makeDir`
and then write; on success of the read just write (the `If-None-Match`
slow-path is handled in `v1DataPut`). -/
def v1DataPutCore (hv : List String → Bool) (store : Data) (p : List String)
    (v : Data) : Except SrvErr Data :=
  match readData store p with
  | .ok _ => writeAdd store p v
  | .error .notFound =>
    match makeDir hv store p.dropLast with
    | .error e => .error e
    | .ok d1 => writeAdd d1 p v
  | .error e => .error e

/-- `Server.v1DataPut`: parse the path (400 on failure), then read; an
existing document with `If-None-Match: *` responds 304; otherwise write with
ancestor materialization, responding 204 on success and the error's status
otherwise. -/
def v1DataPut (hv : List String → Bool) (store : Data) (pathStr : String)
    (ifNoneMatchStar : Bool) (v : Data) : Data × Nat :=
  match parsePath ("/" ++ trimSlashes pathStr) with
  | none => (store, 400)
  | some p =>
    match readData store p with
    | .ok _ =>
      if ifNoneMatchStar then (store, 304)
      else
        match writeAdd store p v with
        | .ok d2 => (d2, 204)
        | .error e => (store, srvStatus e)
    | .error .notFound =>
      match makeDir hv store p.dropLast with
      | .error e => (store, srvStatus e)
      | .ok d1 =>
        match writeAdd d1 p v with
        | .ok d2 => (d2, 204)
        | .error e => (store, srvStatus e)
    | .error e => (store, srvStatus e)

/-!  ## Policy mutation handlers and the compiler snapshot

The parser and compiler are external; the module type `M` and the compiled
snapshot type `C` are abstract, and compilation is an abstract function
`compile : module set → Option snapshot` (`none` models
`compiler.Failed()`).  The storage policy map is modelled as an association
list with unique keys; per the spec, `ListPolicies` hands the handler a local
copy of the stored set. -/

/-- The server state relevant to policy mutation: the stored module set and
the published compiler snapshot. -/
structure PolicySrv (M C : Type) where
  mods : List (String × M)
  compiler : C

/-- Key lookup in the module set. -/
def lookupMod {M : Type} (id : String) : List (String × M) → Option M
  | [] => none
  | (k, m) :: rest => if k = id then some m else lookupMod id rest

/-- `mods[id] = parsedMod`: insert-or-replace in the module set. -/
def insertMod {M : Type} (id : String) (m : M) : List (String × M) → List (String × M)
  | [] => [(id, m)]
  | (k, m1) :: rest => if k = id then (id, m) :: rest else (k, m1) :: insertMod id m rest

/-- `delete(mods, id)`: removal from the module set. -/
def removeMod {M : Type} (id : String) (mods : List (String × M)) : List (String × M) :=
  mods.filter (fun km => km.1 != id)

/-- `Server.v1PoliciesPut` after a successful module parse: recompile the
whole set with the new module applied; on compiler failure respond 400 and
change nothing; otherwise persist the module and publish the new snapshot
(status 200). -/
def v1PoliciesPut {M C : Type} (compile : List (String × M) → Option C)
    (s : PolicySrv M C) (id : String) (m : M) : PolicySrv M C × Nat :=
  let mods2 := insertMod id m s.mods
  match compile mods2 with
  | none => (s, 400)
  | some c => (⟨mods2, c⟩, 200)

/-- `Server.v1PoliciesDelete`: 404 when the module does not exist; otherwise
recompile the set without it; on compiler failure respond 400 and change
nothing; otherwise delete the module and publish the new snapshot (204). -/
def v1PoliciesDelete {M C : Type} (compile : List (String × M) → Option C)
    (s : PolicySrv M C) (id : String) : PolicySrv M C × Nat :=
  match lookupMod id s.mods with
  | none => (s, 404)
  | some _ =>
    let mods2 := removeMod id s.mods
    match compile mods2 with
    | none => (s, 400)
    | some c => (⟨mods2, c⟩, 204)

/-- A policy mutation request. -/
inductive PolicyOp (M : Type) where
  | putOp (id : String) (m : M)
  | delOp (id : String)

/-- Apply one policy mutation, returning the next state and the status. -/
def applyPolicyOp {M C : Type} (compile : List (String × M) → Option C)
    (s : PolicySrv M C) : PolicyOp M → PolicySrv M C × Nat
  | .putOp id m => v1PoliciesPut compile s id m
  | .delOp id => v1PoliciesDelete compile s id

/-- Apply a sequence of policy mutations. -/
def applyPolicyOps {M C : Type} (compile : List (String × M) → Option C)
    (s : PolicySrv M C) : List (PolicyOp M) → PolicySrv M C
  | [] => s
  | op :: rest => applyPolicyOps compile (applyPolicyOp compile s op).1 rest

/-!  ## The RPC façade (`grpcDataGet`)

The decision stage of `grpcDataGet` operates on the evaluation results
`qrs`, each a decoded JSON value.  Failed Go type assertions on `interface{}`
values (including the assertion on the `nil` interface obtained when the
`match` key is absent) are runtime panics, modelled as `Except.error ()`. -/

/-- `ibp.Response_PERMIT` / `ibp.Response_DENY`. -/
inductive Verdict where
  | PERMIT
  | DENY
deriving DecidableEq, Repr

/-- The RPC response: the effect plus the obligation attributes (id, value
pairs). -/
structure RpcResponse where
  effect : Verdict
  obligations : List (String × String)
deriving DecidableEq, Repr

/-- `ValidateMatch`, the running best match of the loop. -/
structure ValidateMatch where
  actionData : String
  actionType : String
  priority : Int
deriving DecidableEq, Repr

/-- Go type assertion `.(map[string]interface{})`: panics unless the value is
an object. -/
def asObjE : Data → Except Unit (List (String × Data))
  | .obj fs => .ok fs
  | _ => .error ()

/-- Go type assertion chain `.(json.Number).Int64()` on a looked-up field:
panics when the field is absent (nil interface) or not a number; the
`Int64` conversion error is discarded in the source. -/
def asNumE : Option Data → Except Unit Int
  | some (.num n) => .ok n
  | _ => .error ()

/-- Go type assertion `.(string)` on a looked-up field: panics when the field
is absent or not a string. -/
def asStrE : Option Data → Except Unit String
  | some (.str s) => .ok s
  | _ => .error ()

/-- The best-match loop of `grpcDataGet`: keep the entry with the greatest
priority seen so far, strictly greater replacing (so the first entry
attaining the running maximum is kept); the action fields are only read when
an entry replaces the running best. -/
def foldBest : List (String × Data) → ValidateMatch → Except Unit ValidateMatch
  | [], b => .ok b
  | (_, val) :: rest, b =>
    match asObjE val with
    | .error e => .error e
    | .ok vfs =>
      match asNumE (lookupF "priority" vfs) with
      | .error e => .error e
      | .ok p =>
        if b.priority < p then
          match asStrE (lookupF "action_type" vfs) with
          | .error e => .error e
          | .ok t =>
            match asStrE (lookupF "action_data" vfs) with
            | .error e => .error e
            | .ok a => foldBest rest ⟨a, t, p⟩
        else foldBest rest b

/-- The decision stage of `Server.grpcDataGet`: the response starts as DENY;
with at least one result, the result object's `match` object is scanned for
the best match, the effect defaults to PERMIT and is overridden to DENY on
`action_block`, and to DENY plus a `redirect_to` obligation on
`action_redirect`. -/
def grpcDataGet (qrs : List Data) : Except Unit RpcResponse :=
  match qrs with
  | [] => .ok ⟨.DENY, []⟩
  | q0 :: _ =>
    match asObjE q0 with
    | .error e => .error e
    | .ok fs =>
      match lookupF "match" fs with
      | none => .error ()
      | some mv =>
        match asObjE mv with
        | .error e => .error e
        | .ok ms =>
          match foldBest ms ⟨"", "", 0⟩ with
          | .error e => .error e
          | .ok best =>
            .ok (if best.actionType = "action_block" then ⟨.DENY, []⟩
                 else if best.actionType = "action_redirect" then
                   ⟨.DENY, [("redirect_to", best.actionData)]⟩
                 else ⟨.PERMIT, []⟩)

/-- The priority / action_type / action_data triple of a well-formed match
entry. -/
def entryPTD (d : Data) : Option (Int × String × String) :=
  match d with
  | .obj fs =>
    match lookupF "priority" fs, lookupF "action_type" fs, lookupF "action_data" fs with
    | some (.num p), some (.str t), some (.str a) => some (p, t, a)
    | _, _, _ => none
  | _ => none

/-- The priority of a match entry (0 when malformed). -/
def prioOf (e : String × Data) : Int :=
  match entryPTD e.2 with
  | some (p, _, _) => p
  | none => 0

/-- The action fields of a match entry (empty when malformed). -/
def actionOf (e : String × Data) : String × String :=
  match entryPTD e.2 with
  | some (_, t, a) => (t, a)
  | none => ("", "")

/-- The verdict mapping of the spec applied to a chosen entry's action
fields: `action_block` denies, `action_redirect` denies with a `redirect_to`
obligation, everything else permits. -/
def verdictFor (e : String × Data) : RpcResponse :=
  if (actionOf e).1 = "action_block" then ⟨.DENY, []⟩
  else if (actionOf e).1 = "action_redirect" then ⟨.DENY, [("redirect_to", (actionOf e).2)]⟩
  else ⟨.PERMIT, []⟩

/-!  ## Terms and the request builder

`ast.Term` values as far as the request builder needs them.  `MakeRequest`
itself lives in the `topdown` package outside `src/`; it is modelled from the
spec (§4.1) and checked below against every vector of the in-tree
`TestMakeRequest`. -/

/-- Policy-language terms: scalars, collections, variables and references
(a reference is a head variable followed by key terms; the empty reference
denotes the whole request document). -/
inductive Term where
  | tnull
  | tbool (b : Bool)
  | tnum (n : Int)
  | tstr (s : String)
  | tarr (elems : List Term)
  | tobj (fields : List (String × Term))
  | tvar (name : String)
  | tref (elems : List Term)
deriving Repr

/-- `ast.EmptyRef()`. -/
def emptyRefT : Term := .tref []

/-- Key lookup in a term object. -/
def lookupT (k : String) : List (String × Term) → Option Term
  | [] => none
  | (k1, v) :: rest => if k1 = k then some v else lookupT k rest

/-- Insert-or-replace in a term object. -/
def setT (k : String) (v : Term) : List (String × Term) → List (String × Term)
  | [] => [(k, v)]
  | (k1, v1) :: rest => if k1 = k then (k, v) :: rest else (k1, v1) :: setT k v rest

/-- Dotted rendering of a key path. -/
def dottedPath (p : List String) : String := String.intercalate "." p

/-- The literal conflict message naming an offending path. -/
def conflictValueMsg (p : List String) : String :=
  "conflicting request value request." ++ dottedPath p ++ ": check request parameters"

/-- The literal whole-document conflict message. -/
def conflictValuesMsg : String := "conflicting request values: check request parameters"

/-- Rendering of one reference element (string keys print dotted, numbers
bracketed), as in `ast.Ref.String()`. -/
def refElemStr : Term → String
  | .tstr s => "." ++ s
  | .tnum n => "[" ++ toString n ++ "]"
  | .tvar v => "." ++ v
  | _ => ""

/-- Rendering of a reference term. -/
def refStr : Term → String
  | .tref (.tvar h :: elems) => h ++ String.join (elems.map refElemStr)
  | _ => ""

/-- The literal invalid-path message of the request builder. -/
def invalidPathMsg (k : Term) : String :=
  "invalid request path: invalid path " ++ refStr k ++ ": path elements must be strings"

/-- The string keys of a reference tail; `none` when some element is not a
string. -/
def strKeys : List Term → Option (List String)
  | [] => some []
  | .tstr s :: rest => (strKeys rest).map (fun ks => s :: ks)
  | _ => none

/-- Modelled from the spec: the key of a request pair is either the empty
reference (whole document) or a head variable followed by string keys only;
anything else is a path error naming the offending reference. -/
def refKeys : Term → Except String (List String)
  | .tref [] => .ok []
  | .tref (h :: elems) =>
    match strKeys elems with
    | some keys => .ok keys
    | none => .error (invalidPathMsg (.tref (h :: elems)))
  | t => .error (invalidPathMsg t)

/-- Nested singleton objects along the remaining keys, ending in the value. -/
def buildNested (keys : List String) (v : Term) : Term :=
  match keys with
  | [] => v
  | k :: rest => .tobj [(k, buildNested rest v)]

/-- Modelled from the spec: placement at the terminal slot — an occupied slot
only accepts the new value when both old and new are objects; otherwise the
conflict names the full path (or is the whole-document conflict at the
root). -/
def mergeTerminal (mp : List String) (old v : Term) : Except String Term :=
  match old, v with
  | .tobj _, .tobj _ => .ok v
  | _, _ => .error (if mp.isEmpty then conflictValuesMsg else conflictValueMsg mp)

/-- Modelled from the spec: descend along `keys`, creating empty objects for
missing steps; a non-object met along the way raises the conflict naming the
full inserted path (whole-document conflict when the root itself is the
non-object). -/
def insertPair (full : List String) (atRoot : Bool) (node : Term)
    (keys : List String) (v : Term) : Except String Term :=
  match keys with
  | [] => mergeTerminal (if atRoot then [] else full) node v
  | k :: rest =>
    match node with
    | .tobj fs =>
      match lookupT k fs with
      | none => .ok (.tobj (setT k (buildNested rest v) fs))
      | some child =>
        match insertPair full false child rest v with
        | .ok c2 => .ok (.tobj (setT k c2 fs))
        | .error e => .error e
    | _ => .error (if atRoot then conflictValuesMsg else conflictValueMsg full)

/-- One pair of the request builder: a whole-document pair sets an unset
result and otherwise must merge at the root; a keyed pair is inserted into
the result (created as an empty object when unset). -/
def stepPair (acc : Option Term) (kv : Term × Term) : Except String (Option Term) :=
  match refKeys kv.1 with
  | .error e => .error e
  | .ok [] =>
    match acc with
    | none => .ok (some kv.2)
    | some r => (mergeTerminal [] r kv.2).map some
  | .ok (k :: ks) =>
    match acc with
    | none => (insertPair (k :: ks) true (.tobj []) (k :: ks) kv.2).map some
    | some r => (insertPair (k :: ks) true r (k :: ks) kv.2).map some

/-- The pair loop of the request builder, in input order. -/
def mrLoop (acc : Option Term) : List (Term × Term) → Except String (Option Term)
  | [] => .ok acc
  | kv :: rest =>
    match stepPair acc kv with
    | .error e => .error e
    | .ok acc2 => mrLoop acc2 rest

/-- Modelled from the spec: `topdown.MakeRequest` — merge the ordered
(ref, value) pairs into one request document; an empty pair list yields the
nil document. -/
def makeRequest (pairs : List (Term × Term)) : Except String Term :=
  match mrLoop none pairs with
  | .error e => .error e
  | .ok none => .ok .tnull
  | .ok (some v) => .ok v

/-!  ## The `request=` query-parameter parser

`ast.ParseTerm` is external to `src/`; `parseReqPairs` is therefore
parameterized by an abstract parser `pt`, and `parseTermM` below is a
concrete model of it for the inputs the claims need. -/

/-- Errors of `parseRequest`: the literal format error, a raw error from the
term parser (whose message is the parser's own), or an error propagated from
the request builder. -/
inductive ReqErr where
  | fmtErr
  | termErr (s : String)
  | mrErr (msg : String)
deriving DecidableEq, Repr

/-- The literal message of `errRequestPathFormat`. -/
def errRequestPathFormat : String :=
  "request parameter format is [[<path>]:]<value> where <path> is either var or ref"

/-- Outcome of a Go function that can also crash: a value, a returned error,
or a runtime panic (here: the out-of-bounds index on an empty item). -/
inductive GoRes (α : Type) where
  | ok (a : α)
  | err (e : ReqErr)
  | panicked

/-- Whether a `GoRes` holds a value. -/
def isOkRes {α : Type} : GoRes α → Bool
  | .ok _ => true
  | _ => false

/-- Break a character list at the first occurrence of `c`; `none` when `c`
does not occur. -/
def breakAtChar (c : Char) : List Char → Option (List Char × List Char)
  | [] => none
  | x :: rest =>
    if x = c then some ([], rest)
    else (breakAtChar c rest).map (fun pr => (x :: pr.1, pr.2))

/-- `strings.SplitN(s, ":", 2)`: `none` when the item has no colon, otherwise
the part before the first colon and the remainder after it. -/
def splitFirstColon (s : String) : Option (String × String) :=
  (breakAtChar ':' s.toList).map (fun pr => (String.mk pr.1, String.mk pr.2))

/-- The body of one iteration of the `parseRequest` item loop: `s[i][0]` is
read unconditionally, so an empty item is an out-of-bounds panic; an item
starting with `:` is a whole-document value; otherwise the whole item is
tried as a term, and on failure it is split at the first colon into a path
(parsed with the `request.` root prepended, failure giving the format error)
and a value (failure giving the term parser's own error). -/
def parseReqItem (pt : String → Option Term) (item : String) : GoRes (Term × Term) :=
  match item.toList with
  | [] => .panicked
  | c0 :: ctail =>
    if c0 = ':' then
      match pt (String.mk ctail) with
      | none => .err (.termErr (String.mk ctail))
      | some v => .ok (emptyRefT, v)
    else
      match pt item with
      | some v => .ok (emptyRefT, v)
      | none =>
        match splitFirstColon item with
        | none => .err .fmtErr
        | some (p1, rest1) =>
          match pt ("request." ++ p1) with
          | none => .err .fmtErr
          | some k =>
            match pt rest1 with
            | none => .err (.termErr rest1)
            | some v => .ok (k, v)

/-- The item loop of `parseRequest`: items are processed in order, the first
returned error (or panic) aborts the loop. -/
def parseReqPairs (pt : String → Option Term) : List String → GoRes (List (Term × Term))
  | [] => .ok []
  | item :: rest =>
    match parseReqItem pt item with
    | .panicked => .panicked
    | .err e => .err e
    | .ok kv =>
      match parseReqPairs pt rest with
      | .ok ps => .ok (kv :: ps)
      | .err e => .err e
      | .panicked => .panicked

/-- `parseRequest`: build the pairs, then merge them with the request
builder. -/
def parseRequest (pt : String → Option Term) (items : List String) : GoRes Term :=
  match parseReqPairs pt items with
  | .panicked => .panicked
  | .err e => .err e
  | .ok pairs =>
    match makeRequest pairs with
    | .error m => .err (.mrErr m)
    | .ok v => .ok v

/-- The parameter stage of `Server.v1DataGet`: any error returned by
`parseRequest` is answered with status 400. -/
def v1DataGetParamStatus (pt : String → Option Term) (items : List String) : Option Nat :=
  match parseRequest pt items with
  | .err _ => some 400
  | _ => none

mutual
/-- Walk of `ast.WalkVars` restricted to the non-ground test: does a term
mention any variable other than the `data` root? -/
def hasNonDataVar : Term → Bool
  | .tnull => false
  | .tbool _ => false
  | .tnum _ => false
  | .tstr _ => false
  | .tvar v => v != "data"
  | .tarr l => listHasNDV l
  | .tref l => listHasNDV l
  | .tobj fs => fieldsHasNDV fs
def listHasNDV : List Term → Bool
  | [] => false
  | t :: rest => hasNonDataVar t || listHasNDV rest
def fieldsHasNDV : List (String × Term) → Bool
  | [] => false
  | (_, t) :: rest => hasNonDataVar t || fieldsHasNDV rest
end

/-- The non-ground flag of `parseRequest`: some value term mentions a
variable other than `data`. -/
def nonGroundOf (pairs : List (Term × Term)) : Bool :=
  pairs.any (fun kv => hasNonDataVar kv.2)

/-- A policy-language identifier character. -/
def isIdentChar (c : Char) : Bool := c.isAlpha || c.isDigit || c = '_'

/-- A policy-language identifier, as a character list. -/
def isIdentL : List Char → Bool
  | [] => false
  | c :: rest => (c.isAlpha || c = '_') && rest.all isIdentChar

/-- Decimal value of a digit list. -/
def natOfDigits (l : List Char) : Nat :=
  l.foldl (fun acc c => acc * 10 + (c.toNat - 48)) 0

/-- An optionally-signed integer literal. -/
def parseIntM (s : String) : Option Int :=
  match s.toList with
  | [] => none
  | '-' :: rest =>
    if rest.isEmpty then none
    else if rest.all (fun c => c.isDigit) then some (-(natOfDigits rest : Int))
    else none
  | l =>
    if l.all (fun c => c.isDigit) then some ((natOfDigits l : Int))
    else none

/-- The variable-or-dotted-reference case of the term parser model. -/
def dottedCase (s : String) : Option Term :=
  match splitChar '.' s.toList with
  | [] => none
  | [x] => if isIdentL x then some (.tvar (String.mk x)) else none
  | x :: xs =>
    if isIdentL x && xs.all isIdentL then
      some (.tref (.tvar (String.mk x) :: xs.map (fun l => .tstr (String.mk l))))
    else none

/-- Modelled from the spec: `ast.ParseTerm` on the term fragment the claims
exercise — a complete term is an integer literal, a quoted string, a
variable, or a dotted reference; anything else (in particular any unquoted
item containing `:`) is a parse failure. -/
def parseTermM (s : String) : Option Term :=
  match parseIntM s with
  | some n => some (.tnum n)
  | none =>
    match s.toList with
    | '"' :: c1 :: rest =>
      if (c1 :: rest).getLast? = some '"'
          ∧ ((c1 :: rest).dropLast).all (fun c => c != '"') then
        some (.tstr (String.mk ((c1 :: rest).dropLast)))
      else dottedCase s
    | _ => dottedCase s

/-- Whether an `Except` holds a value. -/
def isOkE {ε α : Type} : Except ε α → Bool
  | .ok _ => true
  | .error _ => false

/-- A `request`-rooted reference with the given string keys. -/
def reqRefC (ks : List String) : Term := .tref (.tvar "request" :: ks.map .tstr)

/-!  # Theorems -/

/-- `errors.Cause` never returns a wrapper. -/
theorem errorsCause_not_wrapped (e : GoError) : ∀ m c, errorsCause e ≠ .wrapped m c := by
  induction e with
  | wrapped m0 c0 ih => intro m c; simpa [errorsCause] using ih m c
  | notFoundE m0 => intro m c; simp [errorsCause]
  | writeConflictGo p0 => intro m c; simp [errorsCause]
  | badRequestE m0 => intro m c; simp [errorsCause]
  | invalidPatchE m0 => intro m c; simp [errorsCause]
  | otherE m0 => intro m c; simp [errorsCause]

/-- The one-step walk equals the kind of the root cause (interior wrappers
are never recognized). -/
theorem chainStatus_eq_root (e : GoError) :
    chainStatus e = (kindStatusOf (errorsCause e)).getD 500 := by
  induction e with
  | wrapped m c ih => simpa [chainStatus, errorsCause, kindStatusOf] using ih
  | notFoundE m => simp [chainStatus, errorsCause, kindStatusOf]
  | writeConflictGo p => simp [chainStatus, errorsCause, kindStatusOf]
  | badRequestE m => simp [chainStatus, errorsCause, kindStatusOf]
  | invalidPatchE m => simp [chainStatus, errorsCause, kindStatusOf]
  | otherE m => simp [chainStatus, errorsCause, kindStatusOf]

/-- A chain with no recognized kind has an unrecognized root. -/
theorem recKindFree_root {e : GoError} (h : recKindFree e = true) :
    kindStatusOf (errorsCause e) = none := by
  induction e with
  | wrapped m c ih => simp [recKindFree] at h; simpa [errorsCause] using ih h
  | notFoundE m => simp [recKindFree] at h
  | writeConflictGo p => simp [recKindFree] at h
  | badRequestE m => simp [recKindFree] at h
  | invalidPatchE m => simp [recKindFree] at h
  | otherE m => simp [errorsCause, kindStatusOf]

/-- C6: the automatic error responder chooses the status by walking the
error's cause chain until a recognized kind is found or the chain stops
changing; NotFound and WriteConflict map to 404, BadRequest and InvalidPatch
to 400, and an error with no recognized kind anywhere in its chain maps to
500. -/
theorem c6_error_status_mapping :
    (∀ e, handleErrorAuto e = chainStatus e) ∧
    (∀ m, handleErrorAuto (.notFoundE m) = 404) ∧
    (∀ p, handleErrorAuto (.writeConflictGo p) = 404) ∧
    (∀ m, handleErrorAuto (.badRequestE m) = 400) ∧
    (∀ m, handleErrorAuto (.invalidPatchE m) = 400) ∧
    (∀ e, recKindFree e = true → handleErrorAuto e = 500) := by
  have hmain : ∀ e, handleErrorAuto e = chainStatus e := by
    intro e
    rw [chainStatus_eq_root]
    cases e with
    | wrapped m c =>
      have hnw : ¬(errorsCause (GoError.wrapped m c) = GoError.wrapped m c) :=
        errorsCause_not_wrapped (GoError.wrapped m c) m c
      have hk : kindStatusOf (GoError.wrapped m c) = none := rfl
      simp only [handleErrorAuto, hk, if_neg hnw]
      cases h : kindStatusOf (errorsCause (GoError.wrapped m c)) <;> simp [h]
    | notFoundE m => simp [handleErrorAuto, kindStatusOf, errorsCause]
    | writeConflictGo p => simp [handleErrorAuto, kindStatusOf, errorsCause]
    | badRequestE m => simp [handleErrorAuto, kindStatusOf, errorsCause]
    | invalidPatchE m => simp [handleErrorAuto, kindStatusOf, errorsCause]
    | otherE m => simp [handleErrorAuto, kindStatusOf, errorsCause]
  refine ⟨hmain, by intro m; rfl, by intro p; rfl, by intro m; rfl, by intro m; rfl, ?_⟩
  intro e h
  rw [hmain e, chainStatus_eq_root, recKindFree_root h]
  rfl

/-- Witness for C6 at concrete errors, including a wrapped chain. -/
theorem c6_error_status_mapping_witness :
    handleErrorAuto (.wrapped "op failed" (.notFoundE "missing")) =
      chainStatus (.wrapped "op failed" (.notFoundE "missing")) ∧
    handleErrorAuto (.notFoundE "x") = 404 ∧
    handleErrorAuto (.writeConflictGo ["a"]) = 404 ∧
    handleErrorAuto (.badRequestE "b") = 400 ∧
    handleErrorAuto (.invalidPatchE "i") = 400 ∧
    handleErrorAuto (.wrapped "ctx" (.otherE "boom")) = 500 :=
  ⟨c6_error_status_mapping.1 _, c6_error_status_mapping.2.1 _,
   c6_error_status_mapping.2.2.1 _, c6_error_status_mapping.2.2.2.1 _,
   c6_error_status_mapping.2.2.2.2.1 _,
   c6_error_status_mapping.2.2.2.2.2 _ (by rfl)⟩

/-- One policy mutation preserves "the published snapshot compiles the exact
stored set". -/
theorem applyPolicyOp_inv {M C : Type} (compile : List (String × M) → Option C)
    (s : PolicySrv M C) (op : PolicyOp M)
    (h : compile s.mods = some s.compiler) :
    compile (applyPolicyOp compile s op).1.mods =
      some (applyPolicyOp compile s op).1.compiler := by
  cases op with
  | putOp id m =>
    simp only [applyPolicyOp, v1PoliciesPut]
    cases hc : compile (insertMod id m s.mods) with
    | none => simpa using h
    | some c => simpa using hc
  | delOp id =>
    simp only [applyPolicyOp, v1PoliciesDelete]
    cases hl : lookupMod id s.mods with
    | none => simpa using h
    | some m =>
      cases hc : compile (removeMod id s.mods) with
      | none => simpa using h
      | some c => simpa using hc

/-- C1: policy PUT and DELETE recompile the whole module set with the change
applied before committing; a failed compilation answers 400 and leaves both
the stored module set and the published snapshot unchanged, so along any
sequence of PUT/DELETE operations the published snapshot stays the
successful compilation of exactly the stored set. -/
theorem c1_policy_recompile_invariant {M C : Type}
    (compile : List (String × M) → Option C) :
    (∀ (s : PolicySrv M C) (id : String) (m : M),
        compile (insertMod id m s.mods) = none →
        v1PoliciesPut compile s id m = (s, 400)) ∧
    (∀ (s : PolicySrv M C) (id : String) (m : M),
        lookupMod id s.mods = some m →
        compile (removeMod id s.mods) = none →
        v1PoliciesDelete compile s id = (s, 400)) ∧
    (∀ (s : PolicySrv M C) (ops : List (PolicyOp M)),
        compile s.mods = some s.compiler →
        compile (applyPolicyOps compile s ops).mods =
          some (applyPolicyOps compile s ops).compiler) := by
  refine ⟨?_, ?_, ?_⟩
  · intro s id m h
    simp [v1PoliciesPut, h]
  · intro s id m hl h
    simp [v1PoliciesDelete, hl, h]
  · intro s ops
    induction ops generalizing s with
    | nil => intro h; simpa [applyPolicyOps] using h
    | cons op rest ih =>
      intro h
      simpa [applyPolicyOps] using ih _ (applyPolicyOp_inv compile s op h)

/-- Witness for C1: a concrete compiler that fails on sets of two or more
modules, exercising the failing PUT, the failing DELETE and the invariant
along a PUT/DELETE sequence. -/
theorem c1_policy_recompile_invariant_witness :
    (v1PoliciesPut (fun l : List (String × Nat) => if 2 ≤ l.length then none else some l.length)
        ⟨[("a", 5)], 1⟩ "b" 7 = (⟨[("a", 5)], 1⟩, 400)) ∧
    (v1PoliciesDelete (fun l : List (String × Nat) => if 2 ≤ l.length then none else some l.length)
        ⟨[("a", 0), ("b", 0), ("c", 0)], 9⟩ "a" = (⟨[("a", 0), ("b", 0), ("c", 0)], 9⟩, 400)) ∧
    ((fun l : List (String × Nat) => if 2 ≤ l.length then none else some l.length)
        (applyPolicyOps (fun l : List (String × Nat) => if 2 ≤ l.length then none else some l.length)
          ⟨[("a", 5)], 1⟩ [.putOp "b" 7, .delOp "a"]).mods =
      some (applyPolicyOps (fun l : List (String × Nat) => if 2 ≤ l.length then none else some l.length)
          ⟨[("a", 5)], 1⟩ [.putOp "b" 7, .delOp "a"]).compiler) :=
  ⟨(c1_policy_recompile_invariant
      (fun l : List (String × Nat) => if 2 ≤ l.length then none else some l.length)).1
      ⟨[("a", 5)], 1⟩ "b" 7 (by decide),
   (c1_policy_recompile_invariant
      (fun l : List (String × Nat) => if 2 ≤ l.length then none else some l.length)).2.1
      ⟨[("a", 0), ("b", 0), ("c", 0)], 9⟩ "a" 0 (by decide) (by decide),
   (c1_policy_recompile_invariant
      (fun l : List (String × Nat) => if 2 ≤ l.length then none else some l.length)).2.2
      ⟨[("a", 5)], 1⟩ [.putOp "b" 7, .delOp "a"] (by decide)⟩

/-- Decomposition of a well-formed match entry. -/
theorem entryPTD_elim {d : Data} {pr : Int} {t a : String}
    (h : entryPTD d = some (pr, t, a)) :
    ∃ fs, d = .obj fs ∧ lookupF "priority" fs = some (.num pr) ∧
      lookupF "action_type" fs = some (.str t) ∧
      lookupF "action_data" fs = some (.str a) := by
  cases d <;> simp only [entryPTD] at h <;> try exact absurd h (by simp)
  rename_i fs
  refine ⟨fs, rfl, ?_⟩
  split at h <;> simp_all

/-- A well-formed entry whose priority does not beat the running best is
skipped. -/
theorem foldBest_cons_le {rid : String} {val : Data} {rest : List (String × Data)}
    {b : ValidateMatch} {pr : Int} {t a : String}
    (h : entryPTD val = some (pr, t, a)) (hle : pr ≤ b.priority) :
    foldBest ((rid, val) :: rest) b = foldBest rest b := by
  obtain ⟨fs, rfl, hp, ht, ha⟩ := entryPTD_elim h
  simp [foldBest, asObjE, asNumE, hp, not_lt.mpr hle]

/-- A well-formed entry whose priority strictly beats the running best
replaces it. -/
theorem foldBest_cons_gt {rid : String} {val : Data} {rest : List (String × Data)}
    {b : ValidateMatch} {pr : Int} {t a : String}
    (h : entryPTD val = some (pr, t, a)) (hgt : b.priority < pr) :
    foldBest ((rid, val) :: rest) b = foldBest rest ⟨a, t, pr⟩ := by
  obtain ⟨fs, rfl, hp, ht, ha⟩ := entryPTD_elim h
  simp [foldBest, asObjE, asNumE, asStrE, hp, ht, ha, hgt]

/-- When no well-formed entry beats the running best, the best is kept. -/
theorem foldBest_const {ms : List (String × Data)} {b : ValidateMatch}
    (hwf : ∀ e ∈ ms, (entryPTD e.2).isSome = true)
    (hle : ∀ e ∈ ms, prioOf e ≤ b.priority) :
    foldBest ms b = .ok b := by
  induction ms with
  | nil => rfl
  | cons e rest ih =>
    cases e with
    | mk rid val =>
      obtain ⟨⟨pr, t, a⟩, hptd⟩ :=
        Option.isSome_iff_exists.mp (hwf (rid, val) (by simp))
      have hp : pr ≤ b.priority := by
        have := hle (rid, val) (by simp)
        simpa [prioOf, hptd] using this
      rw [foldBest_cons_le hptd hp]
      exact ih (fun x hx => hwf x (by simp [hx])) (fun x hx => hle x (by simp [hx]))

/-- A bounded well-formed list folds to a bounded best. -/
theorem foldBest_bounded {ms : List (String × Data)} {c : Int} :
    ∀ {b : ValidateMatch},
    (∀ e ∈ ms, (entryPTD e.2).isSome = true) →
    (∀ e ∈ ms, prioOf e < c) → b.priority < c →
    ∃ b2, foldBest ms b = .ok b2 ∧ b2.priority < c := by
  induction ms with
  | nil => exact fun _ _ hb => ⟨_, rfl, hb⟩
  | cons e rest ih =>
    intro b hwf hlt hb
    cases e with
    | mk rid val =>
      obtain ⟨⟨pr, t, a⟩, hptd⟩ :=
        Option.isSome_iff_exists.mp (hwf (rid, val) (by simp))
      have hprc : pr < c := by
        have := hlt (rid, val) (by simp)
        simpa [prioOf, hptd] using this
      by_cases hgt : b.priority < pr
      · rw [foldBest_cons_gt hptd hgt]
        exact ih (fun x hx => hwf x (by simp [hx])) (fun x hx => hlt x (by simp [hx])) hprc
      · rw [foldBest_cons_le hptd (not_lt.mp hgt)]
        exact ih (fun x hx => hwf x (by simp [hx])) (fun x hx => hlt x (by simp [hx])) hb

/-- The best-match loop over an appended list runs the two halves in
sequence. -/
theorem foldBest_append (l1 l2 : List (String × Data)) (b : ValidateMatch) :
    foldBest (l1 ++ l2) b =
      match foldBest l1 b with
      | .ok b2 => foldBest l2 b2
      | .error e => .error e := by
  induction l1 generalizing b with
  | nil => simp [foldBest]
  | cons e rest ih =>
    cases e with
    | mk rid val =>
      simp only [List.cons_append, foldBest]
      cases ho : asObjE val <;> simp only [ho] <;> try rfl
      case ok vfs =>
        cases hn : asNumE (lookupF "priority" vfs) <;> simp only [hn] <;> try rfl
        case ok pr =>
          by_cases hlt : b.priority < pr
          · simp only [if_pos hlt]
            cases ht2 : asStrE (lookupF "action_type" vfs) <;> simp only [ht2] <;> try rfl
            next t =>
              cases ha2 : asStrE (lookupF "action_data" vfs) <;> simp only [ha2] <;> try rfl
              next a => exact ih _
          · simp only [if_neg hlt]; exact ih _

/-- The decision stage on a singleton result whose `match` object is `ms`
reduces to the best-match fold. -/
theorem grpcDataGet_match (ms : List (String × Data)) :
    grpcDataGet [.obj [("match", .obj ms)]] =
      match foldBest ms ⟨"", "", 0⟩ with
      | .error e => .error e
      | .ok best =>
        .ok (if best.actionType = "action_block" then ⟨.DENY, []⟩
             else if best.actionType = "action_redirect" then
               ⟨.DENY, [("redirect_to", best.actionData)]⟩
             else ⟨.PERMIT, []⟩) := rfl

/-- C2 (amended): on a non-empty well-formed `match` object the verdict comes
from the first entry attaining the greatest priority, provided that greatest
priority is strictly positive (`action_block` denies, `action_redirect`
denies with a `redirect_to` obligation carrying the entry's `action_data`,
anything else permits); when no entry has positive priority — in particular
when every priority is zero or negative — the initial best (priority 0,
empty action) is kept and the verdict is PERMIT with no obligations. -/
theorem c2_best_match_verdict :
    (∀ ms : List (String × Data),
       (∀ e ∈ ms, (entryPTD e.2).isSome = true) →
       (∀ e ∈ ms, prioOf e ≤ 0) →
       grpcDataGet [.obj [("match", .obj ms)]] = .ok ⟨.PERMIT, []⟩) ∧
    (∀ (pre post : List (String × Data)) (e : String × Data),
       (∀ x ∈ pre ++ e :: post, (entryPTD x.2).isSome = true) →
       0 < prioOf e →
       (∀ x ∈ pre, prioOf x < prioOf e) →
       (∀ x ∈ pre ++ e :: post, prioOf x ≤ prioOf e) →
       grpcDataGet [.obj [("match", .obj (pre ++ e :: post))]] = .ok (verdictFor e)) := by
  constructor
  · intro ms hwf hle
    rw [grpcDataGet_match, foldBest_const hwf hle]
    rfl
  · intro pre post e hwf hpos hstrict hmax
    cases e with
    | mk rid val =>
      obtain ⟨⟨pr, t, a⟩, hptd⟩ :=
        Option.isSome_iff_exists.mp (hwf (rid, val) (by simp))
      have hptd2 : entryPTD val = some (pr, t, a) := hptd
      have hprio : prioOf (rid, val) = pr := by simp [prioOf, hptd2]
      rw [hprio] at hpos hstrict hmax
      have hwfpre : ∀ x ∈ pre, (entryPTD x.2).isSome = true :=
        fun x hx => hwf x (by simp [hx])
      obtain ⟨b2, hfold, hb2⟩ :=
        foldBest_bounded (b := ⟨"", "", 0⟩) hwfpre hstrict hpos
      have hrest : foldBest ((rid, val) :: post) b2 = .ok ⟨a, t, pr⟩ := by
        rw [foldBest_cons_gt hptd2 hb2]
        refine foldBest_const (fun x hx => hwf x (by simp [hx])) ?_
        intro x hx
        have := hmax x (by simp [hx])
        simpa using this
      rw [grpcDataGet_match, foldBest_append, hfold]
      simp only [hrest]
      simp [verdictFor, actionOf, hptd2]

/-- C2 counterexample: a single-entry `match` whose (unique, hence greatest
priority) entry is an `action_block` with priority 0; the claim's selection
rule demands DENY (`verdictFor`), but the code never replaces the running
best (initial priority 0) and answers PERMIT. -/
theorem c2_priority_zero_counterexample :
    grpcDataGet [.obj [("match", .obj [("RULE1",
        .obj [("priority", .num 0), ("action_type", .str "action_block"),
              ("action_data", .str "")])])]] = .ok ⟨.PERMIT, []⟩ ∧
    verdictFor ("RULE1",
        .obj [("priority", .num 0), ("action_type", .str "action_block"),
              ("action_data", .str "")]) = ⟨.DENY, []⟩ ∧
    (⟨.PERMIT, []⟩ : RpcResponse) ≠ ⟨.DENY, []⟩ :=
  ⟨rfl, rfl, by decide⟩

/-- Witness for C2 at concrete matches: an all-nonpositive match permits, and
with positive priorities the first greatest-priority entry decides. -/
theorem c2_best_match_verdict_witness :
    grpcDataGet [.obj [("match", .obj [("R0",
        .obj [("priority", .num (-3)), ("action_type", .str "action_block"),
              ("action_data", .str "")])])]] = .ok ⟨.PERMIT, []⟩ ∧
    grpcDataGet [.obj [("match", .obj
        ([("R1", .obj [("priority", .num 1), ("action_type", .str "action_allow"),
                       ("action_data", .str "")])] ++
         ("R2", .obj [("priority", .num 9), ("action_type", .str "action_redirect"),
                      ("action_data", .str "http://h")]) ::
         [("R3", .obj [("priority", .num 9), ("action_type", .str "action_block"),
                       ("action_data", .str "")])]))]] =
      .ok (verdictFor ("R2",
        .obj [("priority", .num 9), ("action_type", .str "action_redirect"),
              ("action_data", .str "http://h")])) :=
  ⟨c2_best_match_verdict.1 _ (by decide) (by decide),
   c2_best_match_verdict.2 _ _ _ (by decide) (by decide) (by decide) (by decide)⟩

/-- C3 (amended): on a successful singleton evaluation whose result object
has no `match` key at all, `grpcDataGet` does not return the DENY
initialization value — the type assertion on the nil interface is a runtime
panic; a result whose `match` is an empty object returns PERMIT with no
obligations. -/
theorem c3_match_absent_vs_empty :
    (∀ fs : List (String × Data), lookupF "match" fs = none →
        grpcDataGet [.obj fs] = .error ()) ∧
    grpcDataGet [.obj [("match", .obj [])]] = .ok ⟨.PERMIT, []⟩ := by
  constructor
  · intro fs h
    simp [grpcDataGet, asObjE, h]
  · rfl

/-- C3 counterexample: a result object with no `match` key panics instead of
returning the DENY verdict the claim describes. -/
theorem c3_absent_match_counterexample :
    grpcDataGet [.obj [("some_key", .num 1)]] = .error () ∧
    (Except.error () : Except Unit RpcResponse) ≠ .ok ⟨.DENY, []⟩ :=
  ⟨rfl, by simp⟩

/-- Witness for C3 at a concrete match-free result object. -/
theorem c3_match_absent_vs_empty_witness :
    grpcDataGet [.obj [("other", .str "x")]] = .error () ∧
    grpcDataGet [.obj [("match", .obj [])]] = .ok ⟨.PERMIT, []⟩ :=
  ⟨c3_match_absent_vs_empty.1 [("other", .str "x")] rfl,
   c3_match_absent_vs_empty.2⟩

/-- A successfully planned op passed the write-conflict check: its adjusted
path is not in the virtual-document index. -/
theorem prepOne_ok {hv : List String → Bool} {root : String} {p : PatchV1R}
    {impl : PatchImpl} (h : prepOne hv root p = .ok impl) :
    hv (stripAppendSeg impl.op impl.path) = false := by
  unfold prepOne at h
  split at h
  · exact absurd h (by simp)
  · rename_i k hop
    split at h
    · exact absurd h (by simp)
    · rename_i pp hpp
      split at h
      · exact absurd h (by simp)
      · rename_i u hwc
        cases h
        by_cases hq : hv (stripAppendSeg k pp)
        · simp [writeConflict, hq] at hwc
        · simpa using hq

/-- The planning loop over an appended op list runs the halves in
sequence. -/
theorem prepList_append (hv : List String → Bool) (root : String)
    (l1 l2 : List PatchV1R) :
    prepList hv root (l1 ++ l2) =
      match prepList hv root l1 with
      | .error e => .error e
      | .ok r1 => (prepList hv root l2).map (fun r2 => r1 ++ r2) := by
  induction l1 with
  | nil =>
    simp only [List.nil_append, prepList]
    cases prepList hv root l2 <;> rfl
  | cons p rest ih =>
    simp only [List.cons_append, prepList]
    cases hp : prepOne hv root p <;> simp only [hp]
    next impl =>
      rw [List.append_eq, ih]
      cases prepList hv root rest <;> try rfl
      next r1 => cases prepList hv root l2 <;> rfl

/-- C4: the write-conflict check refuses any planned operation whose
(`-`-adjusted on `add`) target path has a virtual document at or under it,
returning a WriteConflict error for that path; consequently every op of a
successfully prepared patch slice has a conflict-free target, so no planned
write goes through a virtual document. -/
theorem c4_virtual_doc_write_conflict :
    (∀ (hv : List String → Bool) (k : PatchOpK) (p : List String),
        hv (stripAppendSeg k p) = true →
        writeConflict hv k p = .error (.writeConflictE (stripAppendSeg k p))) ∧
    (∀ (hv : List String → Bool) (rootRaw : String) (ops : List PatchV1R)
        (res : List PatchImpl),
        prepareV1PatchSlice hv rootRaw ops = .ok res →
        ∀ impl ∈ res, hv (stripAppendSeg impl.op impl.path) = false) := by
  constructor
  · intro hv k p h
    simp [writeConflict, h]
  · intro hv rootRaw ops
    unfold prepareV1PatchSlice
    generalize normRoot rootRaw = root
    induction ops with
    | nil =>
      intro res h impl hm
      simp only [prepList] at h
      cases h
      simp at hm
    | cons p rest ih =>
      intro res h impl hm
      simp only [prepList] at h
      cases hp : prepOne hv root p <;> simp only [hp] at h
      case error => simp at h
      case ok impl0 =>
        cases hr : prepList hv root rest <;> simp only [hr] at h
        case error => simp [Except.map] at h
        case ok r1 =>
          simp only [Except.map] at h
          cases h
          rcases List.mem_cons.mp hm with rfl | hmem
          · exact prepOne_ok hp
          · exact ih r1 hr impl hmem

/-- Witness for C4: a total index conflicts a concrete `add`, and a planned
slice under the empty index has conflict-free targets. -/
theorem c4_virtual_doc_write_conflict_witness :
    writeConflict (fun _ => true) .addK ["a"] = .error (.writeConflictE ["a"]) ∧
    (fun _ : List String => false) (stripAppendSeg PatchOpK.addK ["x", "a"]) = false :=
  ⟨c4_virtual_doc_write_conflict.1 (fun _ => true) .addK ["a"] rfl,
   c4_virtual_doc_write_conflict.2 (fun _ => false) "x" [⟨"add", "/a", .num 1⟩]
     [⟨.addK, ["x", "a"], .num 1⟩] rfl ⟨.addK, ["x", "a"], .num 1⟩ (by simp)⟩

/-- C9: ops are validated in order before any write — an unknown `op` field
yields BadPatchOperation naming it, an unparseable root-joined path yields
BadPatchPath carrying the original pre-join path, and a planning failure
leaves the store untouched (the handler answers with the error's status,
400 for both bad-patch kinds). -/
theorem c9_patch_validation :
    (∀ (hv : List String → Bool) (rootRaw : String) (pre post : List PatchV1R)
        (op : PatchV1R),
        isOkE (prepList hv (normRoot rootRaw) pre) = true →
        parseOpK op.op = none →
        prepareV1PatchSlice hv rootRaw (pre ++ op :: post) =
          .error (.badPatchOperation op.op)) ∧
    (∀ (hv : List String → Bool) (rootRaw : String) (pre post : List PatchV1R)
        (op : PatchV1R) (k : PatchOpK),
        isOkE (prepList hv (normRoot rootRaw) pre) = true →
        parseOpK op.op = some k →
        parsePath (joinPatchPath (normRoot rootRaw) op.path) = none →
        prepareV1PatchSlice hv rootRaw (pre ++ op :: post) =
          .error (.badPatchPath op.path)) ∧
    (∀ (hv : List String → Bool) (store : Data) (rootRaw : String)
        (ops : List PatchV1R) (e : SrvErr),
        prepareV1PatchSlice hv rootRaw ops = .error e →
        v1DataPatch hv store rootRaw ops = (store, srvStatus e)) := by
  refine ⟨?_, ?_, ?_⟩
  · intro hv rootRaw pre post op hpre hop
    cases hp : prepList hv (normRoot rootRaw) pre with
    | error e => rw [hp] at hpre; exact absurd hpre (by simp [isOkE])
    | ok r1 =>
      unfold prepareV1PatchSlice
      rw [prepList_append, hp]
      simp [prepList, prepOne, hop, Except.map]
  · intro hv rootRaw pre post op k hpre hop hpath
    cases hp : prepList hv (normRoot rootRaw) pre with
    | error e => rw [hp] at hpre; exact absurd hpre (by simp [isOkE])
    | ok r1 =>
      unfold prepareV1PatchSlice
      rw [prepList_append, hp]
      simp [prepList, prepOne, hop, hpath, Except.map]
  · intro hv store rootRaw ops e h
    simp [v1DataPatch, h]

/-- Witness for C9 at a concrete batch: an unknown op name, an op path whose
join produces an empty segment, and the unchanged store on a planning
failure. -/
theorem c9_patch_validation_witness :
    prepareV1PatchSlice (fun _ => false) "x"
        ([⟨"add", "/a", .num 1⟩] ++ ⟨"frobnicate", "/b", .num 2⟩ :: []) =
      .error (.badPatchOperation "frobnicate") ∧
    prepareV1PatchSlice (fun _ => false) "x"
        ([⟨"add", "/a", .num 1⟩] ++ ⟨"add", "a//b", .num 3⟩ :: []) =
      .error (.badPatchPath "a//b") ∧
    v1DataPatch (fun _ => false) (.obj [("z", .num 0)]) "x"
        ([⟨"add", "/a", .num 1⟩] ++ ⟨"frobnicate", "/b", .num 2⟩ :: []) =
      (.obj [("z", .num 0)], srvStatus (.badPatchOperation "frobnicate")) :=
  ⟨c9_patch_validation.1 (fun _ => false) "x" [⟨"add", "/a", .num 1⟩] []
      ⟨"frobnicate", "/b", .num 2⟩ rfl rfl,
   c9_patch_validation.2.1 (fun _ => false) "x" [⟨"add", "/a", .num 1⟩] []
      ⟨"add", "a//b", .num 3⟩ .addK rfl rfl rfl,
   c9_patch_validation.2.2 (fun _ => false) (.obj [("z", .num 0)]) "x"
      ([(⟨"add", "/a", .num 1⟩ : PatchV1R)] ++ (⟨"frobnicate", "/b", .num 2⟩ : PatchV1R) :: [])
      (.badPatchOperation "frobnicate") rfl⟩

/-- Errors raised by `refKeys` are invalid-path messages. -/
theorem refKeys_error_msg {t : Term} {e : String} (h : refKeys t = .error e) :
    ∃ t2 : Term, e = invalidPathMsg t2 := by
  unfold refKeys at h
  split at h
  · simp at h
  · split at h
    · simp at h
    · simp at h
      exact ⟨_, h.symm⟩
  · simp at h
    exact ⟨_, h.symm⟩

/-- Errors raised by the terminal merge are the whole-document message or a
conflict naming the given path. -/
theorem mergeTerminal_error_msg {mp : List String} {old v : Term} {e : String}
    (h : mergeTerminal mp old v = .error e) :
    e = conflictValuesMsg ∨ (mp ≠ [] ∧ e = conflictValueMsg mp) := by
  unfold mergeTerminal at h
  split at h <;> simp_all
  by_cases hmp : mp = []
  · subst hmp; simp at h; exact Or.inl h.symm
  · right
    refine ⟨hmp, ?_⟩
    rw [if_neg (by simpa using hmp)] at h
    exact h.symm

/-- Errors raised by a structural insertion are the whole-document message or
a conflict naming the full inserted path. -/
theorem insertPair_error_msg :
    ∀ (keys full : List String) (atRoot : Bool) (node v : Term) (e : String),
      insertPair full atRoot node keys v = .error e →
      e = conflictValuesMsg ∨ e = conflictValueMsg full := by
  intro keys
  induction keys with
  | nil =>
    intro full atRoot node v e h
    simp only [insertPair] at h
    rcases mergeTerminal_error_msg h with h1 | ⟨hne, h1⟩
    · exact Or.inl h1
    · cases hr : atRoot
      · simp [hr] at h1; exact Or.inr h1
      · simp [hr] at hne
  | cons k ks ih =>
    intro full atRoot node v e h
    simp only [insertPair] at h
    split at h
    · split at h
      · simp at h
      · split at h
        · simp at h
        · rename_i hrec
          simp at h
          subst h
          exact ih full false _ v _ hrec
    · cases atRoot <;> simp at h
      · exact Or.inr h.symm
      · exact Or.inl h.symm

/-- Errors raised by one pair of the request builder are a whole-document
conflict, a conflict naming a non-empty key path, or an invalid-path
error. -/
theorem stepPair_error_msg {acc : Option Term} {kv : Term × Term} {e : String}
    (h : stepPair acc kv = .error e) :
    e = conflictValuesMsg ∨ (∃ ks : List String, ks ≠ [] ∧ e = conflictValueMsg ks) ∨
      (∃ t : Term, e = invalidPathMsg t) := by
  unfold stepPair at h
  split at h
  · rename_i e1 hrk
    simp at h
    subst h
    exact Or.inr (Or.inr (refKeys_error_msg hrk))
  · split at h
    · simp at h
    · rename_i r
      cases hm : mergeTerminal [] r kv.2 <;> rw [hm] at h
      · simp [Except.map] at h
        subst h
        rcases mergeTerminal_error_msg hm with h1 | ⟨hne, _⟩
        · exact Or.inl h1
        · simp at hne
      · simp [Except.map] at h
  · rename_i k ks hrk
    split at h
    · cases hi : insertPair (k :: ks) true (.tobj []) (k :: ks) kv.2 <;> rw [hi] at h
      · simp [Except.map] at h
        subst h
        rcases insertPair_error_msg (k :: ks) (k :: ks) true (.tobj []) kv.2 _ hi with h1 | h1
        · exact Or.inl h1
        · exact Or.inr (Or.inl ⟨k :: ks, by simp, h1⟩)
      · simp [Except.map] at h
    · rename_i r
      cases hi : insertPair (k :: ks) true r (k :: ks) kv.2 <;> rw [hi] at h
      · simp [Except.map] at h
        subst h
        rcases insertPair_error_msg (k :: ks) (k :: ks) true r kv.2 _ hi with h1 | h1
        · exact Or.inl h1
        · exact Or.inr (Or.inl ⟨k :: ks, by simp, h1⟩)
      · simp [Except.map] at h

/-- Errors raised by the pair loop keep the same three shapes. -/
theorem mrLoop_error_msg :
    ∀ (ps : List (Term × Term)) (acc : Option Term) (e : String),
      mrLoop acc ps = .error e →
      e = conflictValuesMsg ∨ (∃ ks : List String, ks ≠ [] ∧ e = conflictValueMsg ks) ∨
        (∃ t : Term, e = invalidPathMsg t) := by
  intro ps
  induction ps with
  | nil => intro acc e h; simp [mrLoop] at h
  | cons kv rest ih =>
    intro acc e h
    simp only [mrLoop] at h
    cases hs : stepPair acc kv <;> rw [hs] at h
    · simp at h
      subst h
      exact stepPair_error_msg hs
    · exact ih _ e h

/-- A request-builder error comes from the pair loop. -/
theorem makeRequest_error_elim {ps : List (Term × Term)} {e : String}
    (h : makeRequest ps = .error e) : mrLoop none ps = .error e := by
  unfold makeRequest at h
  split at h
  · rename_i e1 heq
    simp at h
    rw [heq]
    exact congrArg Except.error h
  · simp at h
  · simp at h

/-- The pair loop over an appended list runs the halves in sequence. -/
theorem mrLoop_append (l1 l2 : List (Term × Term)) (acc : Option Term) :
    mrLoop acc (l1 ++ l2) =
      match mrLoop acc l1 with
      | .error e => .error e
      | .ok a2 => mrLoop a2 l2 := by
  induction l1 generalizing acc with
  | nil => simp [mrLoop]
  | cons kv rest ih =>
    simp only [List.cons_append, mrLoop]
    cases stepPair acc kv <;> simp [ih]

/-- An error raised while merging a pair list persists under appended later
pairs: the pair that raises the conflict is determined by the earliest
offending position. -/
theorem makeRequest_error_append {ps qs : List (Term × Term)} {e : String}
    (h : makeRequest ps = .error e) : makeRequest (ps ++ qs) = .error e := by
  have h1 := makeRequest_error_elim h
  unfold makeRequest
  rw [mrLoop_append, h1]

/-- C7: the request builder raises conflicts at the later pair in input order
(the merged prefix determines the error, later pairs never mask it), the
conflict message is exactly
`conflicting request value request.<dotted-path>: check request parameters`
naming the offending path — as on the pair list
`[request.a.b ↦ "c", request.a.b.d ↦ "d"]` — and exactly
`conflicting request values: check request parameters` when the whole
document conflicts. -/
theorem c7_conflict_error_messages :
    makeRequest [(reqRefC ["a", "b"], .tstr "c"), (reqRefC ["a", "b", "d"], .tstr "d")] =
        .error "conflicting request value request.a.b.d: check request parameters" ∧
    makeRequest [(emptyRefT, .tarr [.tnum 1, .tnum 2, .tnum 3]),
        (reqRefC ["a", "b"], .tbool true)] =
        .error "conflicting request values: check request parameters" ∧
    (∀ (ps qs : List (Term × Term)) (e : String),
        makeRequest ps = .error e → makeRequest (ps ++ qs) = .error e) ∧
    (∀ (ps : List (Term × Term)) (e : String),
        makeRequest ps = .error e →
        e = conflictValuesMsg ∨ (∃ ks : List String, ks ≠ [] ∧ e = conflictValueMsg ks) ∨
          (∃ t : Term, e = invalidPathMsg t)) := by
  refine ⟨rfl, rfl, ?_, ?_⟩
  · intro ps qs e h
    exact makeRequest_error_append h
  · intro ps e h
    exact mrLoop_error_msg ps none e (makeRequest_error_elim h)

/-- Witness for C7: a concrete conflicting prefix keeps its error under an
appended pair, and its message has the literal conflict shape. -/
theorem c7_conflict_error_messages_witness :
    makeRequest ([(reqRefC ["a"], .tnum 100), (reqRefC ["a", "b"], .tstr "c")] ++
        [(reqRefC ["x"], .tnum 1)]) =
      .error "conflicting request value request.a.b: check request parameters" ∧
    ("conflicting request value request.a.b: check request parameters" = conflictValuesMsg ∨
      (∃ ks : List String, ks ≠ [] ∧
        "conflicting request value request.a.b: check request parameters" = conflictValueMsg ks) ∨
      (∃ t : Term,
        "conflicting request value request.a.b: check request parameters" = invalidPathMsg t)) :=
  ⟨c7_conflict_error_messages.2.2.1 [(reqRefC ["a"], .tnum 100), (reqRefC ["a", "b"], .tstr "c")]
      [(reqRefC ["x"], .tnum 1)] _ rfl,
   c7_conflict_error_messages.2.2.2 [(reqRefC ["a"], .tnum 100), (reqRefC ["a", "b"], .tstr "c")]
      _ rfl⟩

/-- The request-builder model reproduces every vector of the in-tree
`TestMakeRequest`: the merged documents, both conflict messages, and the
invalid-path message. -/
theorem makeRequest_test_vectors :
    makeRequest [(reqRefC ["hello"], .tstr "world")] =
        .ok (.tobj [("hello", .tstr "world")]) ∧
    makeRequest [(reqRefC ["a"], .tstr "a"), (reqRefC ["b"], .tstr "b")] =
        .ok (.tobj [("a", .tstr "a"), ("b", .tstr "b")]) ∧
    makeRequest [(reqRefC ["a", "b", "c"], .tstr "c"), (reqRefC ["a", "b", "d"], .tstr "d"),
        (reqRefC ["x", "y"], .tarr [])] =
        .ok (.tobj [("a", .tobj [("b", .tobj [("c", .tstr "c"), ("d", .tstr "d")])]),
                    ("x", .tobj [("y", .tarr [])])]) ∧
    makeRequest [(reqRefC ["foo", "bar"],
        .tref [.tvar "data", .tstr "com", .tstr "example", .tstr "widgets", .tvar "i"])] =
        .ok (.tobj [("foo", .tobj [("bar",
          .tref [.tvar "data", .tstr "com", .tstr "example", .tstr "widgets", .tvar "i"])])]) ∧
    makeRequest [(emptyRefT, .tarr [.tnum 1, .tnum 2, .tnum 3])] =
        .ok (.tarr [.tnum 1, .tnum 2, .tnum 3]) ∧
    makeRequest [(emptyRefT, .tarr [.tnum 1, .tnum 2, .tnum 3]),
        (reqRefC ["a", "b"], .tbool true)] =
        .error "conflicting request values: check request parameters" ∧
    makeRequest [(reqRefC ["a", "b"], .tobj [("c", .tarr [])]),
        (reqRefC ["a", "b", "c"], .tarr [.tstr "d"])] =
        .error "conflicting request value request.a.b.c: check request parameters" ∧
    makeRequest [(reqRefC ["a"], .tnum 100), (reqRefC ["a", "b"], .tstr "c")] =
        .error "conflicting request value request.a.b: check request parameters" ∧
    makeRequest [(reqRefC ["a", "b"], .tstr "c"), (reqRefC ["a"], .tnum 100)] =
        .error "conflicting request value request.a: check request parameters" ∧
    makeRequest [(.tref [.tvar "request", .tstr "a", .tnum 1], .tnum 1)] =
        .error "invalid request path: invalid path request.a[1]: path elements must be strings" :=
  ⟨rfl, rfl, rfl, rfl, rfl, rfl, rfl, rfl, rfl, rfl⟩

/-- C8 (amended): a non-empty item not starting with `:` is treated as a
whole value with empty path exactly when the entire item parses as a
complete term; otherwise it is split at the first colon, the prefix is the
path (parsed under the `request.` root) and the remainder the value; a
missing colon or a failed path parse yields the literal format error (the
handler answers any parseRequest error with 400), while a failed value
parse yields the value parser's own error. -/
theorem c8_request_item_parsing :
    (∀ (pt : String → Option Term) (item : String) (c0 : Char) (ctail : List Char) (v : Term),
        item.toList = c0 :: ctail → c0 ≠ ':' → pt item = some v →
        parseReqItem pt item = .ok (emptyRefT, v)) ∧
    (∀ (pt : String → Option Term) (item : String) (c0 : Char) (ctail : List Char),
        item.toList = c0 :: ctail → c0 ≠ ':' → pt item = none →
        splitFirstColon item = none → parseReqItem pt item = .err .fmtErr) ∧
    (∀ (pt : String → Option Term) (item : String) (c0 : Char) (ctail : List Char)
        (p1 r1 : String),
        item.toList = c0 :: ctail → c0 ≠ ':' → pt item = none →
        splitFirstColon item = some (p1, r1) → pt ("request." ++ p1) = none →
        parseReqItem pt item = .err .fmtErr) ∧
    (∀ (pt : String → Option Term) (item : String) (c0 : Char) (ctail : List Char)
        (p1 r1 : String) (k : Term),
        item.toList = c0 :: ctail → c0 ≠ ':' → pt item = none →
        splitFirstColon item = some (p1, r1) → pt ("request." ++ p1) = some k →
        pt r1 = none → parseReqItem pt item = .err (.termErr r1)) ∧
    (∀ (pt : String → Option Term) (item : String) (c0 : Char) (ctail : List Char) (v : Term),
        item.toList = c0 :: ctail → c0 ≠ ':' → pt item = some v →
        parseRequest pt [item] = .ok v) ∧
    (∀ (pt : String → Option Term) (items : List String) (e : ReqErr),
        parseRequest pt items = .err e → v1DataGetParamStatus pt items = some 400) ∧
    parseRequest parseTermM ["x:1"] = .ok (.tobj [("x", .tnum 1)]) := by
  have hwhole : ∀ (pt : String → Option Term) (item : String) (c0 : Char)
      (ctail : List Char) (v : Term),
      item.toList = c0 :: ctail → c0 ≠ ':' → pt item = some v →
      parseReqItem pt item = .ok (emptyRefT, v) := by
    intro pt item c0 ctail v hl hc hv
    unfold parseReqItem
    rw [hl]
    simp [if_neg hc, hv]
  refine ⟨hwhole, ?_, ?_, ?_, ?_, ?_, rfl⟩
  · intro pt item c0 ctail hl hc hv hsplit
    unfold parseReqItem
    rw [hl]
    simp [if_neg hc, hv, hsplit]
  · intro pt item c0 ctail p1 r1 hl hc hv hsplit hpath
    unfold parseReqItem
    rw [hl]
    simp [if_neg hc, hv, hsplit, hpath]
  · intro pt item c0 ctail p1 r1 k hl hc hv hsplit hpath hval
    unfold parseReqItem
    rw [hl]
    simp [if_neg hc, hv, hsplit, hpath, hval]
  · intro pt item c0 ctail v hl hc hv
    have h1 : parseReqItem pt item = .ok (emptyRefT, v) := hwhole pt item c0 ctail v hl hc hv
    unfold parseRequest
    simp only [parseReqPairs, h1]
    simp [makeRequest, mrLoop, stepPair, refKeys, emptyRefT]
  · intro pt items e h
    simp [v1DataGetParamStatus, h]

/-- C8 counterexample: for the item `x:1` the prefix `x` before the first
colon parses as a complete term, yet the item is not treated as a whole
value with empty path — the produced pair binds the `request.x` path; and a
value-parse failure (item `a:(`) returns the term parser's own error value,
not the literal format error. -/
theorem c8_whole_item_counterexample :
    (parseTermM "x").isSome = true ∧
    parseReqPairs parseTermM ["x:1"] =
      .ok [(.tref [.tvar "request", .tstr "x"], .tnum 1)] ∧
    (Term.tref [.tvar "request", .tstr "x"]) ≠ emptyRefT ∧
    parseReqPairs parseTermM ["a:("] = .err (.termErr "(") ∧
    ReqErr.termErr "(" ≠ ReqErr.fmtErr :=
  ⟨rfl, rfl, by simp [emptyRefT], rfl, by decide⟩

/-- Witness for C8 at concrete items: a whole-term item, its end-to-end
whole-value result, and the 400 answer on an erroring item list. -/
theorem c8_request_item_parsing_witness :
    parseReqItem parseTermM "foo" = .ok (emptyRefT, .tvar "foo") ∧
    parseRequest parseTermM ["7"] = .ok (.tnum 7) ∧
    v1DataGetParamStatus parseTermM ["a:("] = some 400 ∧
    parseRequest parseTermM ["x:1"] = .ok (.tobj [("x", .tnum 1)]) :=
  ⟨c8_request_item_parsing.1 parseTermM "foo" 'f' ['o', 'o'] (.tvar "foo") rfl (by decide) rfl,
   c8_request_item_parsing.2.2.2.2.1 parseTermM "7" '7' [] (.tnum 7) rfl (by decide) rfl,
   c8_request_item_parsing.2.2.2.2.2.1 parseTermM ["a:("] (.termErr "(") rfl,
   c8_request_item_parsing.2.2.2.2.2.2⟩

/-- Unfolding of one step of the item loop. -/
theorem parseReqPairs_cons (pt : String → Option Term) (item : String)
    (rest : List String) :
    parseReqPairs pt (item :: rest) =
      match parseReqItem pt item with
      | .panicked => .panicked
      | .err e => .err e
      | .ok kv =>
        match parseReqPairs pt rest with
        | .ok ps => .ok (kv :: ps)
        | .err e => .err e
        | .panicked => .panicked := rfl

/-- When a leading item list succeeds, processing continues into the
appended items. -/
theorem parseReqPairs_ok_append (pt : String → Option Term) :
    ∀ (l1 l2 : List String) (ps : List (Term × Term)),
      parseReqPairs pt l1 = .ok ps →
      parseReqPairs pt (l1 ++ l2) =
        match parseReqPairs pt l2 with
        | .ok qs => .ok (ps ++ qs)
        | .err e => .err e
        | .panicked => .panicked := by
  intro l1
  induction l1 with
  | nil =>
    intro l2 ps h
    simp only [parseReqPairs] at h
    cases h
    simp only [List.nil_append]
    cases parseReqPairs pt l2 <;> rfl
  | cons item rest ih =>
    intro l2 ps h
    rw [parseReqPairs_cons] at h
    rw [List.cons_append, parseReqPairs_cons]
    cases hi : parseReqItem pt item
    case err e => rw [hi] at h; simp at h
    case panicked => rw [hi] at h; simp at h
    case ok kv =>
      rw [hi] at h
      cases hr : parseReqPairs pt rest
      case err e => rw [hr] at h; simp at h
      case panicked => rw [hr] at h; simp at h
      case ok ps2 =>
        rw [hr] at h
        simp at h
        subst h
        rw [ih l2 ps2 hr]
        cases parseReqPairs pt l2 <;> rfl

/-- C10 (amended): the parser indexes `s[i][0]` without an emptiness check,
so it is total only when every reached item is non-empty: an empty item
preceded by successfully processed items makes evaluation hit the
out-of-bounds index (panic) instead of returning an error value; an earlier
item's error, however, returns before the empty item is reached. -/
theorem c10_empty_item_panics :
    (∀ (pt : String → Option Term) (pre rest : List String),
        isOkRes (parseReqPairs pt pre) = true →
        parseReqPairs pt (pre ++ "" :: rest) = .panicked) ∧
    (∀ (pt : String → Option Term) (pre rest : List String),
        isOkRes (parseReqPairs pt pre) = true →
        parseRequest pt (pre ++ "" :: rest) = .panicked) := by
  have h1 : ∀ (pt : String → Option Term) (pre rest : List String),
      isOkRes (parseReqPairs pt pre) = true →
      parseReqPairs pt (pre ++ "" :: rest) = .panicked := by
    intro pt pre rest h
    cases hp : parseReqPairs pt pre with
    | ok ps =>
      rw [parseReqPairs_ok_append pt pre ("" :: rest) ps hp]
      have hemp : parseReqPairs pt ("" :: rest) = .panicked := rfl
      rw [hemp]
    | err e => rw [hp] at h; simp [isOkRes] at h
    | panicked => rw [hp] at h; simp [isOkRes] at h
  refine ⟨h1, ?_⟩
  intro pt pre rest h
  unfold parseRequest
  rw [h1 pt pre rest h]

/-- C10 counterexample: the list `[":", ""]` contains an empty item, yet
evaluation returns the error of the first item rather than reaching the
out-of-bounds index. -/
theorem c10_unreached_empty_counterexample :
    parseRequest parseTermM [":", ""] = .err (.termErr "") ∧
    ("" ∈ [":", ""]) ∧
    (GoRes.err (.termErr "") : GoRes Term) ≠ .panicked :=
  ⟨rfl, by simp, by simp⟩

/-- Witness for C10: one successfully processed item followed by an empty
item panics. -/
theorem c10_empty_item_panics_witness :
    parseReqPairs parseTermM (["a"] ++ "" :: []) = .panicked ∧
    parseRequest parseTermM (["a"] ++ "" :: []) = .panicked :=
  ⟨c10_empty_item_panics.1 parseTermM ["a"] [] rfl,
   c10_empty_item_panics.2 parseTermM ["a"] [] rfl⟩

/-- Reading an appended path walks through the intermediate node. -/
theorem readData_append (p q : List String) :
    ∀ d : Data, readData d (p ++ q) =
      match readData d p with
      | .ok n => readData n q
      | .error e => .error e := by
  induction p with
  | nil => intro d; simp [readData]
  | cons k rest ih =>
    intro d
    simp only [List.cons_append, readData]
    cases d <;> try rfl
    case obj fs =>
      cases hl : lookupF k fs <;> simp [hl, ih]
    case arr l =>
      cases hn : k.toNat? <;> simp only [hn] <;> try rfl
      next i =>
        by_cases hlt : i < l.length
        · simp [hlt, ih]
        · simp [hlt]

/-- Inversion of a successful one-step read. -/
theorem readData_cons_elim {d : Data} {k : String} {q : List String} {n : Data}
    (h : readData d (k :: q) = .ok n) :
    (∃ fs c, d = .obj fs ∧ lookupF k fs = some c ∧ readData c q = .ok n) ∨
    (∃ l i, d = .arr l ∧ k.toNat? = some i ∧
      ∃ hlt : i < l.length, readData (l.get ⟨i, hlt⟩) q = .ok n) := by
  cases d <;> simp only [readData] at h
  case null => exact absurd h (by simp)
  case boolV b => exact absurd h (by simp)
  case num n0 => exact absurd h (by simp)
  case str s0 => exact absurd h (by simp)
  case obj fs =>
    cases hl : lookupF k fs <;> rw [hl] at h
    · simp at h
    · exact Or.inl ⟨fs, _, rfl, hl, h⟩
  case arr l =>
    cases hn : k.toNat? <;> rw [hn] at h
    · simp at h
    · rename_i i
      by_cases hlt : i < l.length
      · simp only [dif_pos hlt] at h
        exact Or.inr ⟨l, i, rfl, rfl, hlt, h⟩
      · simp [hlt] at h

/-- One-step read through an object child. -/
theorem readData_cons_obj {k : String} {fs : List (String × Data)} {c : Data}
    (hl : lookupF k fs = some c) (q : List String) :
    readData (.obj fs) (k :: q) = readData c q := by
  simp [readData, hl]

/-- One-step read through an array element. -/
theorem readData_cons_arr {k : String} {l : List Data} {i : Nat}
    (hn : k.toNat? = some i) (hlt : i < l.length) (q : List String) :
    readData (.arr l) (k :: q) = readData (l.get ⟨i, hlt⟩) q := by
  simp [readData, hn, hlt]

/-- Lookup after insert-or-replace of the same key. -/
theorem lookupF_setF_self (k : String) (v : Data) :
    ∀ fs, lookupF k (setF k v fs) = some v := by
  intro fs
  induction fs with
  | nil => simp [setF, lookupF]
  | cons kv rest ih =>
    cases kv with
    | mk k1 v1 =>
      by_cases h : k1 = k
      · simp [setF, h, lookupF]
      · simp [setF, h, lookupF, ih]

/-- A deep `add` write through an object child. -/
theorem writeAdd_cons2_obj (k r1 : String) (rest2 : List String)
    (gs : List (String × Data)) (v c : Data) (hl : lookupF k gs = some c) :
    writeAdd (.obj gs) (k :: r1 :: rest2) v =
      (writeAdd c (r1 :: rest2) v).map (fun c2 => .obj (setF k c2 gs)) := by
  simp [writeAdd, hl]

/-- A deep `add` write through an array element. -/
theorem writeAdd_cons2_arr (k r1 : String) (rest2 : List String) (l : List Data)
    (v : Data) (i : Nat) (hn : k.toNat? = some i) (hlt : i < l.length) :
    writeAdd (.arr l) (k :: r1 :: rest2) v =
      (writeAdd (l.get ⟨i, hlt⟩) (r1 :: rest2) v).map (fun c2 => .arr (l.set i c2)) := by
  simp [writeAdd, hn, hlt]

/-- The `add` write succeeds whenever the parent of the target path reads as
an object. -/
theorem writeAdd_ok_of_parent_obj :
    ∀ (p : List String) (d v : Data) (fs : List (String × Data)),
      readData d p.dropLast = .ok (.obj fs) → ∃ d2, writeAdd d p v = .ok d2 := by
  intro p
  induction p with
  | nil => intro d v fs h; exact ⟨v, rfl⟩
  | cons k rest ih =>
    intro d v fs h
    cases rest with
    | nil =>
      simp [readData] at h
      subst h
      exact ⟨.obj (setF k v fs), rfl⟩
    | cons r1 rest2 =>
      rw [show (k :: r1 :: rest2).dropLast = k :: (r1 :: rest2).dropLast from by simp] at h
      rcases readData_cons_elim h with ⟨gs, c, rfl, hl, hc⟩ | ⟨l, i, rfl, hn, hlt, hc⟩
      · obtain ⟨c2, hc2⟩ := ih c v fs hc
        exact ⟨.obj (setF k c2 gs), by simp [writeAdd_cons2_obj k r1 rest2 gs v c hl, hc2, Except.map]⟩
      · obtain ⟨c2, hc2⟩ := ih _ v fs hc
        refine ⟨.arr (l.set i c2), ?_⟩
        rw [writeAdd_cons2_arr k r1 rest2 l v i hn hlt, hc2]
        rfl

/-- Reading back a path just written by `add` (under an object parent)
returns the written value. -/
theorem readData_writeAdd_self :
    ∀ (p : List String) (d v d2 : Data) (fs : List (String × Data)),
      readData d p.dropLast = .ok (.obj fs) → writeAdd d p v = .ok d2 →
      readData d2 p = .ok v := by
  intro p
  induction p with
  | nil =>
    intro d v d2 fs h hw
    simp [writeAdd] at hw
    subst hw
    rfl
  | cons k rest ih =>
    intro d v d2 fs h hw
    cases rest with
    | nil =>
      simp [readData] at h
      subst h
      simp [writeAdd] at hw
      subst hw
      rw [readData_cons_obj (lookupF_setF_self k v fs) []]
      rfl
    | cons r1 rest2 =>
      rw [show (k :: r1 :: rest2).dropLast = k :: (r1 :: rest2).dropLast from by simp] at h
      rcases readData_cons_elim h with ⟨gs, c, rfl, hl, hc⟩ | ⟨l, i, rfl, hn, hlt, hc⟩
      · rw [writeAdd_cons2_obj k r1 rest2 gs v c hl] at hw
        cases hwc : writeAdd c (r1 :: rest2) v <;> rw [hwc] at hw <;> simp [Except.map] at hw
        rename_i c2
        subst hw
        rw [readData_cons_obj (lookupF_setF_self k c2 gs) (r1 :: rest2)]
        exact ih c v c2 fs hc hwc
      · rw [writeAdd_cons2_arr k r1 rest2 l v i hn hlt] at hw
        cases hwc : writeAdd (l.get ⟨i, hlt⟩) (r1 :: rest2) v <;> rw [hwc] at hw <;>
          simp [Except.map] at hw
        rename_i c2
        subst hw
        have hlt2 : i < (l.set i c2).length := by simpa [List.length_set] using hlt
        rw [readData_cons_arr hn hlt2 (r1 :: rest2)]
        have hget : (l.set i c2).get ⟨i, hlt2⟩ = c2 := by
          simp [List.get_eq_getElem, List.getElem_set_self]
        rw [hget]
        exact ih _ v c2 fs hc hwc

/-- An `add` write preserves the readability of every strict ancestor of its
target path, and keeps object nodes objects. -/
theorem readData_writeAdd_below :
    ∀ (q p : List String) (d v d2 : Data),
      writeAdd d p v = .ok d2 → q.length < p.length → p.take q.length = q →
      ∀ n, readData d q = .ok n →
      ∃ n2, readData d2 q = .ok n2 ∧ (isObjD n = true → isObjD n2 = true) := by
  intro q
  induction q with
  | nil =>
    intro p d v d2 hw hlen htake n hn
    simp [readData] at hn
    subst hn
    refine ⟨d2, rfl, ?_⟩
    intro hobj
    cases p with
    | nil => simp at hlen
    | cons k prest =>
      cases d <;> simp [isObjD] at hobj ⊢
      rename_i fs
      cases prest with
      | nil =>
        simp [writeAdd] at hw
        subst hw
        simp [isObjD]
      | cons r1 rest2 =>
        cases hl : lookupF k fs with
        | none =>
          rw [show writeAdd (.obj fs) (k :: r1 :: rest2) v = .error .notFound from
            by simp [writeAdd, hl]] at hw
          simp at hw
        | some c =>
          rw [writeAdd_cons2_obj k r1 rest2 fs v c hl] at hw
          cases hwc : writeAdd c (r1 :: rest2) v <;> rw [hwc] at hw <;>
            simp [Except.map] at hw
          subst hw
          simp [isObjD]
  | cons kq q1 ih =>
    intro p d v d2 hw hlen htake n hn
    cases p with
    | nil => simp at hlen
    | cons kp p1 =>
      simp only [List.length_cons, List.take_succ_cons] at htake
      injection htake with hk htake1
      subst hk
      have hlen1 : q1.length < p1.length := by simpa using hlen
      rcases readData_cons_elim hn with ⟨fs, c, rfl, hl, hc⟩ | ⟨l, i, rfl, hni, hlt, hc⟩
      · cases p1 with
        | nil => simp at hlen1
        | cons r1 rest2 =>
          rw [writeAdd_cons2_obj kp r1 rest2 fs v c hl] at hw
          cases hwc : writeAdd c (r1 :: rest2) v <;> rw [hwc] at hw <;>
            simp [Except.map] at hw
          rename_i c2
          subst hw
          obtain ⟨n2, hn2, hsh⟩ := ih (r1 :: rest2) c v c2 hwc hlen1 htake1 n hc
          refine ⟨n2, ?_, hsh⟩
          rw [readData_cons_obj (lookupF_setF_self kp c2 fs) q1]
          exact hn2
      · cases p1 with
        | nil => simp at hlen1
        | cons r1 rest2 =>
          rw [writeAdd_cons2_arr kp r1 rest2 l v i hni hlt] at hw
          cases hwc : writeAdd (l.get ⟨i, hlt⟩) (r1 :: rest2) v <;> rw [hwc] at hw <;>
            simp [Except.map] at hw
          rename_i c2
          subst hw
          obtain ⟨n2, hn2, hsh⟩ := ih (r1 :: rest2) _ v c2 hwc hlen1 htake1 n hc
          refine ⟨n2, ?_, hsh⟩
          have hlt2 : i < (l.set i c2).length := by simpa [List.length_set] using hlt
          rw [readData_cons_arr hni hlt2 q1]
          have hget : (l.set i c2).get ⟨i, hlt2⟩ = c2 := by
            simp [List.get_eq_getElem, List.getElem_set_self]
          rw [hget]
          exact hn2

/-- Every prefix of a readable path is readable. -/
theorem readData_take_ok {d : Data} {p : List String} {node : Data} (i : Nat)
    (h : readData d p = .ok node) :
    ∃ m, readData d (p.take i) = .ok m := by
  have hsplit : p.take i ++ p.drop i = p := List.take_append_drop i p
  rw [← hsplit, readData_append] at h
  cases hr : readData d (p.take i) <;> rw [hr] at h
  · simp at h
  · exact ⟨_, rfl⟩

/-- The store read fails only with `NotFound`. -/
theorem readData_error_notFound : ∀ (p : List String) (d : Data) {e : SrvErr},
    readData d p = .error e → e = .notFound := by
  intro p
  induction p with
  | nil => intro d e h; simp [readData] at h
  | cons k rest ih =>
    intro d e h
    cases d <;> simp only [readData] at h
    case null => simpa using h.symm
    case boolV b => simpa using h.symm
    case num n0 => simpa using h.symm
    case str s0 => simpa using h.symm
    case obj fs =>
      cases hl : lookupF k fs <;> rw [hl] at h
      · simpa using h.symm
      · exact ih _ h
    case arr l =>
      cases hn : k.toNat? <;> rw [hn] at h
      · simpa using h.symm
      · rename_i i
        by_cases hlt : i < l.length
        · simp only [dif_pos hlt] at h
          exact ih _ h
        · simp only [dif_neg hlt] at h
          simpa using h.symm

/-- A take of the parent path agrees with a take of the path. -/
theorem take_dropLast_eq (p : List String) (i : Nat) (h : i ≤ p.length - 1) :
    p.dropLast.take i = p.take i := by
  rw [List.dropLast_eq_take, List.take_take]
  congr 1
  omega

/-- Full characterization of the `makeDir` body under an empty
virtual-document index and enough fuel: on success the target reads as an
object, existing nodes stay readable (objects staying objects) on every
prefix, and every prefix that was missing now reads as an object; on
failure the error is a WriteConflict naming a prefix that exists and is not
an object. -/
theorem makeDirF_spec (hv : List String → Bool) (hnv : ∀ q, hv q = false) :
    ∀ (fuel : Nat) (p : List String), p.length < fuel → ∀ d : Data,
      (∀ d1, makeDirF hv d fuel p = .ok d1 →
        (∃ fs, readData d1 p = .ok (.obj fs)) ∧
        (∀ q n, p.take q.length = q → q.length ≤ p.length → readData d q = .ok n →
           ∃ n2, readData d1 q = .ok n2 ∧ (isObjD n = true → isObjD n2 = true)) ∧
        (∀ q, p.take q.length = q → q.length ≤ p.length → readData d q = .error .notFound →
           ∃ fs, readData d1 q = .ok (.obj fs))) ∧
      (∀ e, makeDirF hv d fuel p = .error e →
        ∃ q n, p.take q.length = q ∧ q.length ≤ p.length ∧ readData d q = .ok n ∧
          isObjD n = false ∧ e = .writeConflictE q) := by
  intro fuel
  induction fuel with
  | zero => intro p hlen; omega
  | succ fuel0 ih =>
  intro p hlen d
  constructor
  · intro d1 hok
    simp only [makeDirF] at hok
    cases hread : readData d p with
    | ok node =>
      rw [hread] at hok
      cases node <;> simp at hok
      rename_i fs
      subst hok
      refine ⟨⟨fs, hread⟩, ?_, ?_⟩
      · intro q nq _ _ hq
        exact ⟨nq, hq, fun hh => hh⟩
      · intro q htake hqlen hq
        obtain ⟨mm, hm⟩ := readData_take_ok q.length hread
        rw [htake] at hm
        have := hm.symm.trans hq
        simp at this
    | error e0 =>
      have he0 := readData_error_notFound p d hread
      subst he0
      rw [hread] at hok
      cases p with
      | nil => simp [readData] at hread
      | cons a l =>
        have hok2 : (match makeDirF hv d fuel0 (a :: l).dropLast with
            | .error e1 => .error e1
            | .ok dm =>
              match writeConflict hv .addK (a :: l) with
              | .error e1 => .error e1
              | .ok _ => writeAdd dm (a :: l) (.obj [])) = Except.ok d1 := hok
        cases hmd : makeDirF hv d fuel0 (a :: l).dropLast with
        | error e1 => rw [hmd] at hok2; simp at hok2
        | ok dmid =>
          rw [hmd] at hok2
          rw [show writeConflict hv .addK (a :: l) = .ok () from
            by simp [writeConflict, hnv]] at hok2
          have hwr : writeAdd dmid (a :: l) (.obj []) = .ok d1 := hok2
          have hdl : (a :: l).dropLast.length < fuel0 := by
            simp only [List.length_dropLast, List.length_cons] at hlen ⊢
            omega
          have IH := (ih ((a :: l).dropLast) hdl d).1 dmid hmd
          obtain ⟨⟨fsm, hfsm⟩, IHpres, IHmiss⟩ := IH
          have hself := readData_writeAdd_self (a :: l) dmid (.obj []) d1 fsm hfsm hwr
          refine ⟨⟨[], hself⟩, ?_, ?_⟩
          · intro q nq htake hqlen hq
            rcases Nat.lt_or_ge q.length (a :: l).length with hlt | hge
            · have hle1 : q.length ≤ (a :: l).length - 1 := by
                simp only [List.length_cons] at hlt ⊢
                omega
              have htake1 : (a :: l).dropLast.take q.length = q := by
                rw [take_dropLast_eq _ _ hle1, htake]
              have hqlen1 : q.length ≤ (a :: l).dropLast.length := by
                simp only [List.length_dropLast, List.length_cons] at hlt ⊢
                omega
              obtain ⟨n2, hn2, hsh⟩ := IHpres q nq htake1 hqlen1 hq
              obtain ⟨n3, hn3, hsh2⟩ :=
                readData_writeAdd_below q (a :: l) dmid (.obj []) d1 hwr hlt htake n2 hn2
              exact ⟨n3, hn3, fun hh => hsh2 (hsh hh)⟩
            · have hqeq : q = a :: l := by
                have hql : q.length = (a :: l).length := le_antisymm hqlen hge
                rw [← htake, hql, List.take_length]
              subst hqeq
              have := hread.symm.trans hq
              simp at this
          · intro q htake hqlen hq
            rcases Nat.lt_or_ge q.length (a :: l).length with hlt | hge
            · have hle1 : q.length ≤ (a :: l).length - 1 := by
                simp only [List.length_cons] at hlt ⊢
                omega
              have htake1 : (a :: l).dropLast.take q.length = q := by
                rw [take_dropLast_eq _ _ hle1, htake]
              have hqlen1 : q.length ≤ (a :: l).dropLast.length := by
                simp only [List.length_dropLast, List.length_cons] at hlt ⊢
                omega
              obtain ⟨fs2, hfs2⟩ := IHmiss q htake1 hqlen1 hq
              obtain ⟨n2, hn2, hsh⟩ :=
                readData_writeAdd_below q (a :: l) dmid (.obj []) d1 hwr hlt htake
                  (.obj fs2) hfs2
              have hobj2 : isObjD n2 = true := hsh rfl
              cases n2 <;> simp [isObjD] at hobj2
              rename_i fs3
              exact ⟨fs3, hn2⟩
            · have hqeq : q = a :: l := by
                have hql : q.length = (a :: l).length := le_antisymm hqlen hge
                rw [← htake, hql, List.take_length]
              subst hqeq
              exact ⟨[], hself⟩
  · intro e herr
    simp only [makeDirF] at herr
    cases hread : readData d p with
    | ok node =>
      rw [hread] at herr
      cases node <;> simp at herr
      all_goals exact ⟨p, _, by simp, le_rfl, hread, rfl, herr.symm⟩
    | error e0 =>
      have he0 := readData_error_notFound p d hread
      subst he0
      rw [hread] at herr
      cases p with
      | nil => simp [readData] at hread
      | cons a l =>
        have herr2 : (match makeDirF hv d fuel0 (a :: l).dropLast with
            | .error e1 => .error e1
            | .ok dm =>
              match writeConflict hv .addK (a :: l) with
              | .error e1 => .error e1
              | .ok _ => writeAdd dm (a :: l) (.obj [])) = Except.error e := herr
        cases hmd : makeDirF hv d fuel0 (a :: l).dropLast with
        | ok dmid =>
          rw [hmd] at herr2
          rw [show writeConflict hv .addK (a :: l) = .ok () from
            by simp [writeConflict, hnv]] at herr2
          have hwr : writeAdd dmid (a :: l) (.obj []) = .error e := herr2
          have hdl : (a :: l).dropLast.length < fuel0 := by
            simp only [List.length_dropLast, List.length_cons] at hlen ⊢
            omega
          have IH := (ih ((a :: l).dropLast) hdl d).1 dmid hmd
          obtain ⟨⟨fsm, hfsm⟩, hpres2, hmiss2⟩ := IH
          obtain ⟨d2, hd2⟩ := writeAdd_ok_of_parent_obj (a :: l) dmid (.obj []) fsm hfsm
          rw [hd2] at hwr
          simp at hwr
        | error e1 =>
          rw [hmd] at herr2
          have he : e1 = e := by simpa using herr2
          subst he
          have hdl : (a :: l).dropLast.length < fuel0 := by
            simp only [List.length_dropLast, List.length_cons] at hlen ⊢
            omega
          obtain ⟨qq, nn, htq, hlq, hrq, hno, heq⟩ :=
            (ih ((a :: l).dropLast) hdl d).2 e1 hmd
          refine ⟨qq, nn, ?_, ?_, hrq, hno, heq⟩
          · rw [← take_dropLast_eq (a :: l) qq.length
              (by simpa [List.length_dropLast] using hlq)]
            exact htq
          · calc qq.length ≤ (a :: l).dropLast.length := hlq
              _ ≤ (a :: l).length := by simp [List.length_dropLast]

/-- C5: on a PUT whose target read reports store NotFound (with no virtual
documents installed), the handler does not propagate the NotFound — either
every missing ancestor of the path is materialized as an empty object and
the write is performed (the written value then reads back at the path), or
some existing ancestor holds a non-object value and the handler instead
returns a WriteConflict error naming that ancestor path. -/
theorem c5_put_not_found_materializes (hv : List String → Bool) (store : Data)
    (p : List String) (v : Data) (hnv : ∀ q, hv q = false)
    (hread : readData store p = .error .notFound) :
    (∃ d2, v1DataPutCore hv store p v = .ok d2 ∧ readData d2 p = .ok v ∧
       (∀ q, p.take q.length = q → q.length < p.length →
          readData store q = .error .notFound → ∃ fs, readData d2 q = .ok (.obj fs)))
    ∨ (∃ q n, p.take q.length = q ∧ q.length < p.length ∧ readData store q = .ok n ∧
         isObjD n = false ∧ v1DataPutCore hv store p v = .error (.writeConflictE q)) := by
  have hp_ne : p ≠ [] := by
    intro hp
    subst hp
    simp [readData] at hread
  have hpos : 0 < p.length := List.length_pos.mpr hp_ne
  have hfuel : p.dropLast.length < p.dropLast.length + 1 := Nat.lt_succ_self _
  have hspec := makeDirF_spec hv hnv (p.dropLast.length + 1) p.dropLast hfuel store
  cases hmd : makeDir hv store p.dropLast with
  | ok d1 =>
    have hcore : v1DataPutCore hv store p v = writeAdd d1 p v := by
      unfold v1DataPutCore
      rw [hread, hmd]
    have hmd2 : makeDirF hv store (p.dropLast.length + 1) p.dropLast = .ok d1 := hmd
    obtain ⟨⟨fsm, hfsm⟩, hpres, hmiss⟩ := hspec.1 d1 hmd2
    obtain ⟨d2, hd2⟩ := writeAdd_ok_of_parent_obj p d1 v fsm hfsm
    left
    refine ⟨d2, by rw [hcore, hd2], readData_writeAdd_self p d1 v d2 fsm hfsm hd2, ?_⟩
    intro q htake hqlt hq
    have hle1 : q.length ≤ p.dropLast.length := by
      simp only [List.length_dropLast]
      omega
    have htake1 : p.dropLast.take q.length = q := by
      rw [take_dropLast_eq p q.length (by omega), htake]
    obtain ⟨fs2, hfs2⟩ := hmiss q htake1 hle1 hq
    obtain ⟨n2, hn2, hsh⟩ := readData_writeAdd_below q p d1 v d2 hd2 hqlt htake (.obj fs2) hfs2
    have hobj2 := hsh rfl
    cases n2 <;> simp [isObjD] at hobj2
    rename_i fs3
    exact ⟨fs3, hn2⟩
  | error e =>
    have hcore : v1DataPutCore hv store p v = .error e := by
      unfold v1DataPutCore
      rw [hread, hmd]
    have hmd2 : makeDirF hv store (p.dropLast.length + 1) p.dropLast = .error e := hmd
    obtain ⟨q, n, htq, hlq, hrq, hno, heq⟩ := hspec.2 e hmd2
    subst heq
    right
    refine ⟨q, n, ?_, ?_, hrq, hno, hcore⟩
    · rw [← take_dropLast_eq p q.length (by simpa [List.length_dropLast] using hlq)]
      exact htq
    · have hlq2 := hlq
      simp only [List.length_dropLast] at hlq2
      omega

/-- Witness for C5: putting a value at a two-level missing path in an empty
store. -/
theorem c5_put_not_found_materializes_witness :
    readData (Data.obj []) ["x", "y"] = .error .notFound ∧
    ((∃ d2, v1DataPutCore (fun _ => false) (.obj []) ["x", "y"] (.num 7) = .ok d2 ∧
        readData d2 ["x", "y"] = .ok (.num 7) ∧
        (∀ q, List.take q.length ["x", "y"] = q → q.length < (["x", "y"] : List String).length →
           readData (Data.obj []) q = .error .notFound →
           ∃ fs, readData d2 q = .ok (.obj fs)))
      ∨ (∃ q n, List.take q.length ["x", "y"] = q ∧
           q.length < (["x", "y"] : List String).length ∧
           readData (Data.obj []) q = .ok n ∧ isObjD n = false ∧
           v1DataPutCore (fun _ => false) (.obj []) ["x", "y"] (.num 7) =
             .error (.writeConflictE q))) :=
  ⟨rfl, c5_put_not_found_materializes (fun _ => false) (.obj []) ["x", "y"] (.num 7)
      (fun q => rfl) rfl⟩
